import Mathlib

/-!
# Verification of the GTMSense virtual filesystem core

A shallow embedding of the template-section codec (`src/gtmClient.ts`) and of
the virtual filesystem / pending-change tracker (`src/fileSystemProvider.ts`),
with theorems settling the specification's claims about them.

Strings are modelled as `List Char`; JavaScript `Map`s as insertion-ordered
association lists; the remote API as an oracle supplying one response per
outgoing call.  Timestamps (`ctime`/`mtime`, always `Date.now()`) carry no
information relevant to any claim and are elided from the file records.
-/

namespace GtmSense

/-! ## Association lists with JavaScript `Map` semantics

`Map.set` on an existing key replaces the value in place (keeping the original
insertion position), otherwise appends; `Map.delete` removes; iteration is in
insertion order. -/

def alGet {K V : Type} [DecidableEq K] (k : K) : List (K × V) → Option V
  | [] => none
  | (k', v) :: rest => if k' = k then some v else alGet k rest

def alSet {K V : Type} [DecidableEq K] (k : K) (v : V) : List (K × V) → List (K × V)
  | [] => [(k, v)]
  | (k', v') :: rest => if k' = k then (k, v) :: rest else (k', v') :: alSet k v rest

def alDelete {K V : Type} [DecidableEq K] (k : K) : List (K × V) → List (K × V)
  | [] => []
  | (k', v) :: rest => if k' = k then rest else (k', v) :: alDelete k rest

def alHas {K V : Type} [DecidableEq K] (k : K) (l : List (K × V)) : Bool :=
  (alGet k l).isSome

/-! ## Entity model (`gtmClient.ts`)

`GtmTag` and `GtmVariable` share one shape (name, type, optional parameter
list, fingerprint, path); `GtmTemplate` carries a marker-delimited
`templateData` document. -/

structure GtmParam where
  ptype : List Char
  key : List Char
  value : Option (List Char)
deriving Repr, DecidableEq

/-- Shared shape of `GtmTag` and `GtmVariable`. -/
structure GtmResource where
  name : List Char
  rtype : List Char
  parameter : Option (List GtmParam)
  fingerprint : List Char
  path : List Char
deriving Repr, DecidableEq

structure GtmTemplateR where
  name : List Char
  fingerprint : List Char
  path : List Char
  templateData : List Char
deriving Repr, DecidableEq

inductive GtmItem where
  | resource : GtmResource → GtmItem
  | template : GtmTemplateR → GtmItem
deriving Repr, DecidableEq

def GtmItem.itemPath : GtmItem → List Char
  | .resource r => r.path
  | .template t => t.path

def GtmItem.itemName : GtmItem → List Char
  | .resource r => r.name
  | .template t => t.name

/-- `extractCode` from `gtmClient.ts`: the first `html` parameter's value when
truthy (a non-empty string), else the first `javascript` parameter's value
when truthy, else the empty string. -/
def extractCode (item : GtmResource) : List Char :=
  match item.parameter with
  | none => []
  | some params =>
    match params.find? (fun p => p.key = "html".toList) with
    | some hp =>
      match hp.value with
      | some v => if v ≠ [] then v else extractCodeJs params
      | none => extractCodeJs params
    | none => extractCodeJs params
where
  /-- The `javascript`-parameter fallback branch. -/
  extractCodeJs (params : List GtmParam) : List Char :=
    match params.find? (fun p => p.key = "javascript".toList) with
    | some jp =>
      match jp.value with
      | some v => if v ≠ [] then v else []
      | none => []
    | none => []

/-- `updateCode` from `gtmClient.ts`: replace the value of the first `html`
parameter, else of the first `javascript` parameter; with no parameter list
the item is returned unchanged. -/
def updateCode (item : GtmResource) (newCode : List Char) : GtmResource :=
  match item.parameter with
  | none => item
  | some params =>
    match params.findIdx? (fun p => p.key = "html".toList) with
    | some i => { item with parameter := some (setParamValue params i newCode) }
    | none =>
      match params.findIdx? (fun p => p.key = "javascript".toList) with
      | some i => { item with parameter := some (setParamValue params i newCode) }
      | none => { item with parameter := some params }
where
  setParamValue : List GtmParam → Nat → List Char → List GtmParam
    | [], _, _ => []
    | p :: rest, 0, v => { p with value := some v } :: rest
    | p :: rest, n + 1, v => p :: setParamValue rest n v

/-! ## Template section codec (`gtmClient.ts`)

The section scanner realizes the JavaScript global regex
`/___([A-Z_]+)___/g` driven by `exec`: at each candidate position the literal
`___` must match, then the greedy class run backtracks until a closing `___`
follows, and the search resumes after the match (`lastIndex`). -/

def isClassChar (c : Char) : Bool := ('A' ≤ c && c ≤ 'Z') || c = '_'

def us3 : List Char := ['_', '_', '_']

/-- Can the greedy group stop after `k` characters, i.e. is the closing `___`
there? -/
def closingAt (run : List Char) (k : Nat) : Bool :=
  (run.drop k).take 3 = us3

/-- Greedy backtracking: the largest `k ≥ 1` admitting a closing `___`,
searching downward from the full run length. -/
def bestK (run : List Char) : Nat → Option Nat
  | 0 => none
  | k + 1 => if closingAt run (k + 1) then some (k + 1) else bestK run k

/-- One attempt of `/___([A-Z_]+)___/` anchored at the head of `s`, returning
the group (the section name) and the total match length. -/
def matchAt (s : List Char) : Option (List Char × Nat) :=
  if s.take 3 = us3 then
    let run := (s.drop 3).takeWhile isClassChar
    match bestK run run.length with
    | some k => some (run.take k, k + 6)
    | none => none
  else none

/-- The `exec` loop: collect `(name, index, length)` for each successive
match; fuel is bounded by the string length since `lastIndex` strictly
advances. -/
def scanAux : Nat → List Char → Nat → List (List Char × Nat × Nat)
  | 0, _, _ => []
  | _ + 1, [], _ => []
  | fuel + 1, c :: rest, i =>
    match matchAt (c :: rest) with
    | some (name, len) => (name, i, len) :: scanAux fuel (rest.drop (len - 1)) (i + len)
    | none => scanAux fuel rest (i + 1)

def scanMarkers (s : List Char) : List (List Char × Nat × Nat) :=
  scanAux s.length s 0

/-- The character class of JavaScript `String.prototype.trim` (ASCII
whitespace, NBSP, BOM and the Unicode space separators). -/
def isJsSpace (c : Char) : Bool :=
  c = ' ' || c = '\t' || c = '\n' || c = '\r' ||
  c = '\x0b' || c = '\x0c' || c = '\u00a0' || c = '\ufeff' ||
  c = '\u1680' || ('\u2000' ≤ c && c ≤ '\u200a') ||
  c = '\u2028' || c = '\u2029' || c = '\u202f' || c = '\u205f' || c = '\u3000'

def trimList (s : List Char) : List Char :=
  ((s.dropWhile isJsSpace).reverse.dropWhile isJsSpace).reverse

/-- JavaScript `String.prototype.includes`. -/
def hasInfixStr (s : List Char) (sub : List Char) : Bool :=
  match s with
  | [] => sub.isEmpty
  | _ :: rest => sub.isPrefixOf s || hasInfixStr rest sub

/-- `getSectionExtension` from `gtmClient.ts`. -/
def getSectionExtension (sectionName : List Char) : List Char :=
  if hasInfixStr sectionName "SANDBOXED_JS".toList then ".js".toList
  else if sectionName = "INFO".toList ∨ sectionName = "TEMPLATE_PARAMETERS".toList ∨
      hasInfixStr sectionName "PERMISSIONS".toList then ".json".toList
  else if sectionName = "TESTS".toList then ".json".toList
  else ".txt".toList

/-- `TemplateSection` from `gtmClient.ts`; `fileExt` models the interface's
file-extension field. -/
structure TemplateSection where
  name : List Char
  marker : List Char
  content : List Char
  fileExt : List Char
deriving Repr, DecidableEq

/-- Second loop of `parseTemplateSections`: each section's content spans from
the end of its marker to the start of the next marker (or the end of the
document), trimmed. -/
def buildSections (doc : List Char) : List (List Char × Nat × Nat) → List TemplateSection
  | [] => []
  | (name, idx, len) :: rest =>
    let contentEnd := match rest with
      | [] => doc.length
      | (_, idx2, _) :: _ => idx2
    let contentStart := idx + len
    { name := name
      marker := us3 ++ name ++ us3
      content := trimList ((doc.drop contentStart).take (contentEnd - contentStart))
      fileExt := getSectionExtension name } :: buildSections doc rest

def parseTemplateSections (templateData : List Char) : List TemplateSection :=
  buildSections templateData (scanMarkers templateData)

/-- `rebuildTemplate`: `marker + "\n" + content + "\n"` per section, joined
with `"\n"`. -/
def rebuildTemplate (sections : List TemplateSection) : List Char :=
  List.intercalate ['\n'] (sections.map (fun s => s.marker ++ ['\n'] ++ s.content ++ ['\n']))

def setContent : List TemplateSection → Nat → List Char → List TemplateSection
  | [], _, _ => []
  | s :: rest, 0, c => { s with content := c } :: rest
  | s :: rest, n + 1, c => s :: setContent rest n c

/-- `updateTemplateSection`: parse, replace the first section named
`sectionName`, rebuild; the document is returned unchanged when no section
carries that name. -/
def updateTemplateSection (templateData sectionName newContent : List Char) : List Char :=
  let sections := parseTemplateSections templateData
  match sections.findIdx? (fun s => s.name = sectionName) with
  | none => templateData
  | some i => rebuildTemplate (setContent sections i newContent)

end GtmSense

namespace GtmSense

/-! ## Virtual tree store and pending-change tracker (`fileSystemProvider.ts`)

File addresses (`vscode.Uri`) are modelled as their decoded path-segment
lists; `uri.toString()` keys and slash-split-plus-decode agree under this
representation. -/

inductive ItemType where
  | tag | variable | templateSection
deriving Repr, DecidableEq

structure FileEntry where
  name : List Char
  data : List Char
  gtmItem : GtmItem
  itemType : ItemType
  sectionName : Option (List Char)
deriving Repr, DecidableEq

inductive Entry where
  | file : FileEntry → Entry
  | dir : List Char → List (List Char × Entry) → Entry

structure ContainerInfo where
  name : List Char
  publicId : List Char
  workspacePath : List Char
  workspaceName : List Char
  key : List Char
deriving Repr, DecidableEq

structure ModifiedFile where
  uri : List (List Char)
  containerName : List Char
  folder : List Char
  fileName : List Char
  itemType : ItemType
  gtmItem : GtmItem
  newCode : List Char
  newName : Option (List Char)
  sectionName : Option (List Char)
deriving Repr, DecidableEq

structure FsState where
  root : List (List Char × Entry)
  containers : List (List Char × ContainerInfo)
  variableNames : List (List Char × List (List Char))
  modifiedFiles : List (List (List Char) × ModifiedFile)

inductive FsError where
  | fileNotFound | fileNotADirectory | noPermissions | containerNotFound | folderNotFound
deriving Repr, DecidableEq

/-- `(item as GtmTemplate).templateData || ''`: `undefined` for tags and
variables, hence the empty string after `|| ''`. -/
def GtmItem.templateDataOf : GtmItem → List Char
  | .resource _ => []
  | .template t => t.templateData

/-- `extractCode(item)` applied to any stored item: a template has no
`parameter` field, so `extractCode` returns the empty string on it. -/
def extractCodeOfItem : GtmItem → List Char
  | .resource r => extractCode r
  | .template _ => []

/-- `extractItemCode` from `fileSystemProvider.ts`: template sections read the
named section's content out of the entity's `templateData`; everything else
goes through `extractCode`.  (`sectionName` must be truthy: a present,
non-empty string.) -/
def extractItemCode (item : GtmItem) (itemType : ItemType) (sectionName : Option (List Char)) :
    List Char :=
  match itemType, sectionName with
  | .templateSection, some sn =>
    if sn.isEmpty then extractCodeOfItem item
    else
      match (parseTemplateSections item.templateDataOf).find? (fun s => s.name = sn) with
      | some s => s.content
      | none => []
  | _, _ => extractCodeOfItem item

def isIllegalFileChar (c : Char) : Bool :=
  c = '<' || c = '>' || c = ':' || c = '"' || c = '/' || c = '\\' || c = '|' || c = '?' || c = '*'

/-- `sanitizeFileName`: illegal filename characters become `_`, then trim. -/
def sanitizeFileName (name : List Char) : List Char :=
  trimList (name.map (fun c => if isIllegalFileChar c then '_' else c))

def lookupFrom (e : Entry) : List (List Char) → Option Entry
  | [] => some e
  | p :: ps =>
    match e with
    | .file _ => none
    | .dir _ entries =>
      match alGet p entries with
      | none => none
      | some child => lookupFrom child ps

def FsState.lookup (st : FsState) (uri : List (List Char)) : Option Entry :=
  lookupFrom (.dir [] st.root) uri

/-- `lookupAsFile`: a missing entry and a directory both surface as
`FileNotFound`. -/
def FsState.lookupAsFile (st : FsState) (uri : List (List Char)) : Except FsError FileEntry :=
  match st.lookup uri with
  | some (.file f) => .ok f
  | _ => .error .fileNotFound

/-- `lookupAsDirectory`: a missing entry and a file both surface as
`FileNotADirectory`. -/
def FsState.lookupAsDirectory (st : FsState) (uri : List (List Char)) :
    Except FsError (List (List Char × Entry)) :=
  match st.lookup uri with
  | some (.dir _ es) => .ok es
  | _ => .error .fileNotADirectory

inductive VKind where
  | file | directory
deriving Repr, DecidableEq

def entryKind : Entry → VKind
  | .file _ => .file
  | .dir _ _ => .directory

def FsState.readFile (st : FsState) (uri : List (List Char)) : Except FsError (List Char) :=
  (st.lookupAsFile uri).map (·.data)

def FsState.readDirectory (st : FsState) (uri : List (List Char)) :
    Except FsError (List (List Char × VKind)) :=
  (st.lookupAsDirectory uri).map (fun es => es.map (fun p => (p.1, entryKind p.2)))

/-- In-place object mutation of the file entry a uri resolves to, expressed as
a functional tree update (leaves the tree unchanged when the uri does not
resolve to a file). -/
def updateEntryAt : List (List Char × Entry) → List (List Char) → (FileEntry → FileEntry) →
    List (List Char × Entry)
  | entries, [], _ => entries
  | entries, [p], f =>
    match alGet p entries with
    | some (.file fe) => alSet p (.file (f fe)) entries
    | _ => entries
  | entries, p :: ps, f =>
    match alGet p entries with
    | some (.dir n es) => alSet p (.dir n (updateEntryAt es ps f)) entries
    | _ => entries

/-- `parts[i]` of the split uri path (`undefined` never arises on the
three-segment file uris the theorems quantify over). -/
def seg (uri : List (List Char)) (i : Nat) : List Char :=
  (uri.drop i).headD []

/-- `writeFile` from `fileSystemProvider.ts`. -/
def FsState.writeFile (st : FsState) (uri : List (List Char)) (content : List Char) :
    Except FsError FsState :=
  match st.lookupAsFile uri with
  | .error e => .error e
  | .ok entry =>
    let newCode := content
    let originalCode := extractItemCode entry.gtmItem entry.itemType entry.sectionName
    let root' := updateEntryAt st.root uri (fun fe => { fe with data := content })
    let containerName := seg uri 0
    let folder := seg uri 1
    let existingModified := alGet uri st.modifiedFiles
    let hasNameChange := match existingModified with
      | some m => m.newName.isSome
      | none => false
    let modified' :=
      if newCode ≠ originalCode ∨ hasNameChange = true then
        alSet uri
          { uri := uri
            containerName := containerName
            folder := folder
            fileName := entry.name
            itemType := entry.itemType
            gtmItem := entry.gtmItem
            newCode := newCode
            newName := existingModified.bind (fun m => m.newName)
            sectionName := entry.sectionName } st.modifiedFiles
      else alDelete uri st.modifiedFiles
    .ok { st with root := root', modifiedFiles := modified' }

def FsState.isModified (st : FsState) (uri : List (List Char)) : Bool :=
  alHas uri st.modifiedFiles

def FsState.hasModifiedFiles (st : FsState) : Bool :=
  decide (st.modifiedFiles.length > 0)

/-- `names[idx] = newN` after `names.indexOf(oldN)` (no change when absent). -/
def replaceFirst (names : List (List Char)) (oldN newN : List Char) : List (List Char) :=
  match names with
  | [] => []
  | n :: rest => if n = oldN then newN :: rest else n :: replaceFirst rest oldN newN

/-- `renameFile` from `fileSystemProvider.ts`: re-keys the tree node under the
sanitized new name, stages the rename on the pending change (preserving a
previously staged code edit), and returns the new uri. -/
def FsState.renameFile (st : FsState) (uri : List (List Char)) (newName : List Char) :
    Except FsError (FsState × List (List Char)) :=
  match st.lookupAsFile uri with
  | .error e => .error e
  | .ok entry =>
    let containerName := seg uri 0
    let folder := seg uri 1
    match alGet containerName st.root with
    | some (.dir cname centries) =>
      match alGet folder centries with
      | some (.dir fname fentries) =>
        let fentries1 := alDelete entry.name fentries
        let existingModified := alGet uri st.modifiedFiles
        let currentCode := entry.data
        let variableNames' :=
          if entry.itemType = .variable then
            let names := (alGet containerName st.variableNames).getD []
            alSet containerName (replaceFirst names entry.gtmItem.itemName newName)
              st.variableNames
          else st.variableNames
        let newFileName := sanitizeFileName newName ++ ".js".toList
        let newEntry : FileEntry :=
          { name := newFileName
            data := entry.data
            gtmItem := entry.gtmItem
            itemType := entry.itemType
            sectionName := none }
        let fentries2 := alSet newFileName (.file newEntry) fentries1
        let centries2 := alSet folder (.dir fname fentries2) centries
        let root' := alSet containerName (.dir cname centries2) st.root
        let newUri := [containerName, folder, newFileName]
        let modified1 := alDelete uri st.modifiedFiles
        let modified2 := alSet newUri
          { uri := newUri
            containerName := containerName
            folder := folder
            fileName := newFileName
            itemType := entry.itemType
            gtmItem := entry.gtmItem
            newCode := (match existingModified with | some m => m.newCode | none => currentCode)
            newName := some newName
            sectionName := none } modified1
        .ok ({ st with
                root := root'
                variableNames := variableNames'
                modifiedFiles := modified2 }, newUri)
      | _ => .error .folderNotFound
    | _ => .error .containerNotFound

/-- `restoreOriginalName` from `fileSystemProvider.ts` (the early `return`s on
missing container/folder/entry leave the state as is). -/
def restoreOriginalName (st : FsState) (uri : List (List Char)) (modified : ModifiedFile) :
    FsState :=
  let containerName := seg uri 0
  let folder := seg uri 1
  match alGet containerName st.root with
  | some (.dir cname centries) =>
    match alGet folder centries with
    | some (.dir fname fentries) =>
      match alGet modified.fileName fentries with
      | some (.file entry) =>
        let fentries1 := alDelete modified.fileName fentries
        let originalName := modified.gtmItem.itemName
        let originalFileName := sanitizeFileName originalName ++ ".js".toList
        let entry' := { entry with name := originalFileName }
        let fentries2 := alSet originalFileName (.file entry') fentries1
        let centries2 := alSet folder (.dir fname fentries2) centries
        let root' := alSet containerName (.dir cname centries2) st.root
        let variableNames' :=
          match modified.itemType, modified.newName with
          | .variable, some nn =>
            if nn.isEmpty then st.variableNames
            else
              let names := (alGet containerName st.variableNames).getD []
              alSet containerName (replaceFirst names nn originalName) st.variableNames
          | _, _ => st.variableNames
        { st with
            root := root'
            variableNames := variableNames'
            modifiedFiles := alDelete uri st.modifiedFiles }
      | _ => st
    | _ => st
  | _ => st

/-- The addressed branch of `discardChanges`: restore the buffer to canonical
content, then either reverse a pending rename or drop the pending change. -/
def FsState.discardOne (st : FsState) (uri : List (List Char)) : Except FsError FsState :=
  match alGet uri st.modifiedFiles with
  | none => .ok st
  | some modified =>
    match st.lookupAsFile uri with
    | .error e => .error e
    | .ok entry =>
      let originalCode := extractItemCode entry.gtmItem entry.itemType entry.sectionName
      let st1 := { st with root := updateEntryAt st.root uri (fun fe => { fe with data := originalCode }) }
      match modified.newName with
      | some nn =>
        if nn.isEmpty then
          .ok { st1 with modifiedFiles := alDelete uri st1.modifiedFiles }
        else .ok (restoreOriginalName st1 uri modified)
      | none => .ok { st1 with modifiedFiles := alDelete uri st1.modifiedFiles }

end GtmSense

namespace GtmSense

/-! ## Synchronization engine (`pushChanges`)

Remote calls are answered by an oracle indexed by the running call count; the
outgoing calls are recorded in a trace so that theorems can speak about how
many requests a push issues. -/

inductive RemoteCall where
  | updTemplate (path : List Char) (payload : GtmTemplateR)
  | updTag (path : List Char) (payload : GtmResource)
  | updVariable (path : List Char) (payload : GtmResource)
deriving Repr, DecidableEq

def Oracle : Type := Nat → Except (List Char) GtmItem

structure PushOutcome where
  success : Nat
  failed : Nat
  errors : List (List Char × List Char)
deriving Repr, DecidableEq

structure PushState where
  root : List (List Char × Entry)
  callIdx : Nat
  success : Nat
  failed : Nat
  errors : List (List Char × List Char)
  trace : List RemoteCall

/-- First loop of `pushChanges`: group template-section changes by template
path; the group keeps the first encountered entry's item and a section-name →
new-content map. -/
def groupTemplateChanges (mods : List ModifiedFile) :
    List (List Char × GtmItem × List (List Char × List Char)) :=
  mods.foldl (fun acc m =>
    match m.itemType, m.sectionName with
    | .templateSection, some sn =>
      if sn.isEmpty then acc
      else
        let tpath := m.gtmItem.itemPath
        match alGet tpath acc with
        | none => acc ++ [(tpath, m.gtmItem, [(sn, m.newCode)])]
        | some (tpl, secs) => alSet tpath (tpl, alSet sn m.newCode secs) acc
    | _, _ => acc) []

/-- `{...template, templateData: updatedTemplateData}` (a non-template item
cast this way keeps its shared fields). -/
def asTemplatePayload (item : GtmItem) (d : List Char) : GtmTemplateR :=
  match item with
  | .template t => { t with templateData := d }
  | .resource r => { name := r.name, fingerprint := r.fingerprint, path := r.path, templateData := d }

/-- Message of a locally thrown filesystem error caught by a push `catch`. -/
def fsErrorMsg : List Char := "FileNotFound".toList

/-- After a successful template update: overwrite every section entry of that
template with the server's item; a failing `lookupAsFile` throws, keeping the
store updates already applied. -/
def updateSectionEntries : List ModifiedFile → List Char → GtmItem →
    List (List Char × Entry) → List (List Char × Entry) × Bool
  | [], _, _, root => (root, true)
  | m :: rest, tpath, pushed, root =>
    if m.itemType = .templateSection ∧ m.gtmItem.itemPath = tpath then
      match lookupFrom (.dir [] root) m.uri with
      | some (.file _) =>
        updateSectionEntries rest tpath pushed
          (updateEntryAt root m.uri (fun fe => { fe with gtmItem := pushed }))
      | _ => (root, false)
    else updateSectionEntries rest tpath pushed root

/-- Body of the template-group loop: one `updateTemplate` call per group,
merging every pending section into one document via `updateTemplateSection`. -/
def pushOneTemplate (mods : List ModifiedFile) (oracle : Oracle) (ps : PushState)
    (tpath : List Char) (tpl : GtmItem) (secs : List (List Char × List Char)) : PushState :=
  let updatedData := secs.foldl (fun d p => updateTemplateSection d p.1 p.2) tpl.templateDataOf
  let payload := asTemplatePayload tpl updatedData
  let trace' := ps.trace ++ [.updTemplate tpath payload]
  match oracle ps.callIdx with
  | .ok pushed =>
    match updateSectionEntries mods tpath pushed ps.root with
    | (root', true) =>
      { ps with
          root := root'
          callIdx := ps.callIdx + 1
          success := ps.success + 1
          trace := trace' }
    | (root', false) =>
      { ps with
          root := root'
          callIdx := ps.callIdx + 1
          failed := ps.failed + 1
          errors := ps.errors ++ [(tpl.itemName, fsErrorMsg)]
          trace := trace' }
  | .error msg =>
    { ps with
        callIdx := ps.callIdx + 1
        failed := ps.failed + 1
        errors := ps.errors ++ [(tpl.itemName, msg)]
        trace := trace' }

/-- `modified.gtmItem as GtmTag | GtmVariable` (a template cast this way has
no `parameter` list). -/
def asResource : GtmItem → GtmResource
  | .resource r => r
  | .template t =>
    { name := t.name, rtype := [], parameter := none, fingerprint := t.fingerprint, path := t.path }

/-- Body of the tag/variable loop of `pushChanges` (template sections were
handled by the grouped loop and are skipped). -/
def pushOneItem (oracle : Oracle) (ps : PushState) (m : ModifiedFile) : PushState :=
  if m.itemType = .templateSection then ps
  else
    let updatedItem0 := updateCode (asResource m.gtmItem) m.newCode
    let updatedItem :=
      match m.newName with
      | some nn => if nn.isEmpty then updatedItem0 else { updatedItem0 with name := nn }
      | none => updatedItem0
    let call := if m.itemType = .tag then RemoteCall.updTag m.gtmItem.itemPath updatedItem
                else RemoteCall.updVariable m.gtmItem.itemPath updatedItem
    let trace' := ps.trace ++ [call]
    match oracle ps.callIdx with
    | .ok pushed =>
      match lookupFrom (.dir [] ps.root) m.uri with
      | some (.file _) =>
        { ps with
            root := updateEntryAt ps.root m.uri (fun fe => { fe with gtmItem := pushed })
            callIdx := ps.callIdx + 1
            success := ps.success + 1
            trace := trace' }
      | _ =>
        { ps with
            callIdx := ps.callIdx + 1
            failed := ps.failed + 1
            errors := ps.errors ++ [(m.fileName, fsErrorMsg)]
            trace := trace' }
    | .error msg =>
      { ps with
          callIdx := ps.callIdx + 1
          failed := ps.failed + 1
          errors := ps.errors ++ [(m.fileName, msg)]
          trace := trace' }

/-- `pushChanges` from `fileSystemProvider.ts`: grouped template updates, then
individual tag/variable updates, then — only with zero failures — clear the
whole pending-change map. -/
def FsState.pushChanges (st : FsState) (oracle : Oracle) :
    FsState × PushOutcome × List RemoteCall :=
  let mods := st.modifiedFiles.map (fun p => p.2)
  let groups := groupTemplateChanges mods
  let ps0 : PushState :=
    { root := st.root, callIdx := 0, success := 0, failed := 0, errors := [], trace := [] }
  let ps1 := groups.foldl (fun ps g => pushOneTemplate mods oracle ps g.1 g.2.1 g.2.2) ps0
  let ps2 := mods.foldl (fun ps m => pushOneItem oracle ps m) ps1
  let modified' := if ps2.failed = 0 then [] else st.modifiedFiles
  ({ st with root := ps2.root, modifiedFiles := modified' },
   { success := ps2.success, failed := ps2.failed, errors := ps2.errors }, ps2.trace)

/-! ## Container loading (`addContainer`, `hasContainer` and the
load-container command of `extension.ts`) -/

def containerKeyOf (containerName workspaceName : List Char) : List Char :=
  containerName ++ " (".toList ++ workspaceName ++ ")".toList

/-- `addContainer` from `fileSystemProvider.ts`, with the fetched tags,
variables and templates supplied as arguments (the remote listing results). -/
def FsState.addContainer (st : FsState) (containerName publicId workspacePath workspaceName : List Char)
    (tags vars : List GtmResource) (templates : List GtmTemplateR) : FsState :=
  let containerKey := containerKeyOf containerName workspaceName
  let tagsDir := tags.foldl (fun es t =>
    let code := extractCode t
    if code.isEmpty then es
    else
      let fileName := sanitizeFileName t.name ++ ".js".toList
      alSet fileName (.file
        { name := fileName
          data := code
          gtmItem := .resource t
          itemType := .tag
          sectionName := none }) es) []
  let varsDir := vars.foldl (fun es v =>
    let code := extractCode v
    if code.isEmpty then es
    else
      let fileName := sanitizeFileName v.name ++ ".js".toList
      alSet fileName (.file
        { name := fileName
          data := code
          gtmItem := .resource v
          itemType := .variable
          sectionName := none }) es) []
  let templatesDir := templates.foldl (fun es t =>
    let sections := parseTemplateSections t.templateData
    if sections.isEmpty then es
    else
      let templateDirName := sanitizeFileName t.name
      let tdir := sections.foldl (fun ds s =>
        alSet (s.name ++ s.fileExt) (.file
          { name := s.name ++ s.fileExt
            data := s.content
            gtmItem := .template t
            itemType := .templateSection
            sectionName := some s.name }) ds) []
      alSet templateDirName (.dir templateDirName tdir) es) []
  let containerDir : Entry := .dir containerKey
    [("tags".toList, .dir "tags".toList tagsDir),
     ("variables".toList, .dir "variables".toList varsDir),
     ("templates".toList, .dir "templates".toList templatesDir)]
  { st with
      root := alSet containerKey containerDir st.root
      containers := alSet containerKey
        { name := containerName
          publicId := publicId
          workspacePath := workspacePath
          workspaceName := workspaceName
          key := containerKey } st.containers
      variableNames := alSet containerKey (vars.map (fun v => v.name)) st.variableNames }

def FsState.hasContainer (st : FsState) (containerName workspaceName : List Char) : Bool :=
  alHas (containerKeyOf containerName workspaceName) st.containers

/-- The load-container command of `extension.ts`: warn and return without any
mutation when `hasContainer` already holds for the pair, otherwise
`addContainer`; the returned flag is whether a load happened. -/
def FsState.loadContainerChecked (st : FsState)
    (containerName publicId workspacePath workspaceName : List Char)
    (tags vars : List GtmResource) (templates : List GtmTemplateR) : FsState × Bool :=
  if st.hasContainer containerName workspaceName then (st, false)
  else (st.addContainer containerName publicId workspacePath workspaceName tags vars templates, true)

end GtmSense

namespace GtmSense

/-! ## Support definitions for the theorems -/

/-- Is a rename staged for this address? (`modifiedFiles.get(uri)?.newName !== undefined`.) -/
def stagedRename (st : FsState) (uri : List (List Char)) : Bool :=
  match alGet uri st.modifiedFiles with
  | some m => m.newName.isSome
  | none => false

/-- The value of the first parameter with the given key, treating a missing or
empty value as absent (JavaScript truthiness). -/
def firstTruthyValue (params : List GtmParam) (key : List Char) : Option (List Char) :=
  match params.find? (fun p => p.key = key) with
  | some p =>
    match p.value with
    | some v => if v = [] then none else some v
    | none => none
  | none => none

/-- The amended C9 reading of `extractCode`, written from the specification
side: the value of the *first* `html` parameter when non-empty, else of the
first `javascript` parameter when non-empty, else empty. -/
def extractCodeSpec (item : GtmResource) : List Char :=
  match item.parameter with
  | none => []
  | some params =>
    match firstTruthyValue params "html".toList with
    | some v => v
    | none =>
      match firstTruthyValue params "javascript".toList with
      | some v => v
      | none => []

def isTemplateCallAt (p : List Char) : RemoteCall → Bool
  | .updTemplate q _ => decide (q = p)
  | _ => false

/-- A string in which no position can start a regex match, in any continuation
starting with a newline (runs of marker characters stop at `'\n'`, so only the
string itself matters). -/
def inert (c : List Char) : Prop := ∀ i, matchAt (c.drop i ++ ['\n']) = none

/-- Shape facts holding of every parsed section, sufficient for `rebuild` to
re-parse: a non-empty all-class name, the derived marker and extension, and
content that cannot start a match. -/
def goodSec (s : TemplateSection) : Prop :=
  s.name ≠ [] ∧ (∀ ch ∈ s.name, isClassChar ch = true) ∧
  s.marker = us3 ++ s.name ++ us3 ∧ s.fileExt = getSectionExtension s.name ∧
  inert s.content

def trimSec (s : TemplateSection) : TemplateSection := { s with content := trimList s.content }

/-- The match list the scanner produces on a rebuilt document whose sections
start at offset `i`. -/
def expectedMatches : List TemplateSection → Nat → List (List Char × Nat × Nat)
  | [], _ => []
  | s :: rest, i =>
    (s.name, i, s.name.length + 6) ::
      expectedMatches rest (i + s.name.length + s.content.length + 9)

/-- Soundness data for a scan of `d`: matches are in-range and in order,
every position in a gap fails, and every reported match is real. -/
def gapsOK (d : List Char) : Nat → List (List Char × Nat × Nat) → Prop
  | start, [] => ∀ p, start ≤ p → p < d.length → matchAt (d.drop p) = none
  | start, (n, j, l) :: ms =>
    start ≤ j ∧ j + l ≤ d.length ∧
    (∀ p, start ≤ p → p < j → matchAt (d.drop p) = none) ∧
    matchAt (d.drop j) = some (n, l) ∧ gapsOK d (j + l) ms

/-- Concrete entity exhibiting the C9 counterexample: two `html` parameters,
the first with an empty value. -/
def c9item : GtmResource :=
  { name := []
    rtype := []
    parameter := some
      [{ ptype := [], key := "html".toList, value := some [] },
       { ptype := [], key := "html".toList, value := some "X".toList }]
    fingerprint := []
    path := [] }

/-- Concrete state for the C7 counterexample: one empty directory `d`. -/
def c7state : FsState :=
  { root := [("d".toList, Entry.dir "d".toList [])]
    containers := []
    variableNames := []
    modifiedFiles := [] }

/-- Concrete resource/entry/state used by the C1 and C5 witnesses. -/
def w1res : GtmResource :=
  { name := "T".toList
    rtype := "html".toList
    parameter := some [{ ptype := "template".toList, key := "html".toList, value := some "code".toList }]
    fingerprint := "1".toList
    path := "p/T".toList }

def w1entry : FileEntry :=
  { name := "T.js".toList
    data := "code".toList
    gtmItem := .resource w1res
    itemType := .tag
    sectionName := none }

def w1state : FsState :=
  { root := [("C (W)".toList, Entry.dir "C (W)".toList
      [("tags".toList, Entry.dir "tags".toList [("T.js".toList, Entry.file w1entry)])])]
    containers := []
    variableNames := []
    modifiedFiles := [] }

def w1uri : List (List Char) := ["C (W)".toList, "tags".toList, "T.js".toList]

end GtmSense


namespace GtmSense

/-- Concrete template, pending section edits and state for the C4 witness. -/
def wc4tpl : GtmTemplateR :=
  { name := "Tpl".toList
    fingerprint := "1".toList
    path := "t/1".toList
    templateData := "___AAA___\nx\n\n___BBB___\ny\n".toList }

def wc4uri1 : List (List Char) :=
  ["C (W)".toList, "templates".toList, "Tpl".toList, "AAA.txt".toList]

def wc4uri2 : List (List Char) :=
  ["C (W)".toList, "templates".toList, "Tpl".toList, "BBB.txt".toList]

def wc4m1 : ModifiedFile :=
  { uri := wc4uri1
    containerName := "C (W)".toList
    folder := "templates".toList
    fileName := "AAA.txt".toList
    itemType := .templateSection
    gtmItem := .template wc4tpl
    newCode := "x2".toList
    newName := none
    sectionName := some "AAA".toList }

def wc4m2 : ModifiedFile :=
  { uri := wc4uri2
    containerName := "C (W)".toList
    folder := "templates".toList
    fileName := "BBB.txt".toList
    itemType := .templateSection
    gtmItem := .template wc4tpl
    newCode := "y2".toList
    newName := none
    sectionName := some "BBB".toList }

def wc4state : FsState :=
  { root := []
    containers := []
    variableNames := []
    modifiedFiles := [(wc4uri1, wc4m1), (wc4uri2, wc4m2)] }

/-- Pending code edit and state for the C5 witness (same tree as `w1state`). -/
def w5mod : ModifiedFile :=
  { uri := w1uri
    containerName := "C (W)".toList
    folder := "tags".toList
    fileName := "T.js".toList
    itemType := .tag
    gtmItem := .resource w1res
    newCode := "edited".toList
    newName := none
    sectionName := none }

def w5state : FsState :=
  { root := w1state.root
    containers := []
    variableNames := []
    modifiedFiles := [(w1uri, w5mod)] }

end GtmSense

namespace GtmSense

/-! ## Association-list lemmas -/

theorem alGet_alSet_self {K V : Type} [DecidableEq K] (k : K) (v : V) (l : List (K × V)) :
    alGet k (alSet k v l) = some v := by
  induction l with
  | nil => simp [alSet, alGet]
  | cons hd tl ih =>
    obtain ⟨k', v'⟩ := hd
    by_cases hk : k' = k <;> simp [alSet, alGet, hk, ih]

theorem alGet_alSet_ne {K V : Type} [DecidableEq K] (k k' : K) (v : V) (l : List (K × V))
    (h : k' ≠ k) : alGet k (alSet k' v l) = alGet k l := by
  induction l with
  | nil => simp [alSet, alGet, h]
  | cons hd tl ih =>
    obtain ⟨k'', v''⟩ := hd
    by_cases hk : k'' = k' <;> by_cases hk2 : k'' = k <;>
      simp_all [alSet, alGet]

theorem alGet_alDelete_ne {K V : Type} [DecidableEq K] (k k' : K) (l : List (K × V))
    (h : k' ≠ k) : alGet k (alDelete k' l) = alGet k l := by
  induction l with
  | nil => simp [alDelete, alGet]
  | cons hd tl ih =>
    obtain ⟨k'', v''⟩ := hd
    by_cases hk : k'' = k' <;> by_cases hk2 : k'' = k <;>
      simp_all [alDelete, alGet]

theorem alGet_eq_none_of_not_mem {K V : Type} [DecidableEq K] (k : K) (l : List (K × V))
    (h : k ∉ l.map Prod.fst) : alGet k l = none := by
  induction l with
  | nil => simp [alGet]
  | cons hd tl ih =>
    obtain ⟨k', v'⟩ := hd
    simp only [List.map_cons, List.mem_cons] at h
    push_neg at h
    have hne : ¬ k' = k := fun hh => h.1 hh.symm
    simp [alGet, hne, ih h.2]

theorem alGet_alDelete_self_of_nodup {K V : Type} [DecidableEq K] (k : K) (l : List (K × V))
    (h : (l.map Prod.fst).Nodup) : alGet k (alDelete k l) = none := by
  induction l with
  | nil => simp [alDelete, alGet]
  | cons hd tl ih =>
    obtain ⟨k', v'⟩ := hd
    simp only [List.map_cons, List.nodup_cons] at h
    by_cases hk : k' = k
    · subst hk
      simp only [alDelete, if_pos rfl]
      exact alGet_eq_none_of_not_mem k' tl h.1
    · simp [alDelete, alGet, hk, ih h.2]

theorem alDelete_alSet {K V : Type} [DecidableEq K] (k : K) (v : V) (l : List (K × V)) :
    alDelete k (alSet k v l) = alDelete k l := by
  induction l with
  | nil => simp [alSet, alDelete]
  | cons hd tl ih =>
    obtain ⟨k', v'⟩ := hd
    by_cases hk : k' = k <;> simp [alSet, alDelete, hk, ih]

theorem keys_alDelete_sublist {K V : Type} [DecidableEq K] (k : K) (l : List (K × V)) :
    ((alDelete k l).map Prod.fst).Sublist (l.map Prod.fst) := by
  induction l with
  | nil => simp [alDelete]
  | cons hd tl ih =>
    obtain ⟨k', v'⟩ := hd
    by_cases hk : k' = k
    · simp [alDelete, hk]
    · simpa [alDelete, hk] using ih.cons₂ k'

theorem nodup_keys_alDelete {K V : Type} [DecidableEq K] (k : K) (l : List (K × V))
    (h : (l.map Prod.fst).Nodup) : ((alDelete k l).map Prod.fst).Nodup :=
  (keys_alDelete_sublist k l).nodup h

/-! ## Tree lookup and update lemmas -/

theorem lookupFrom_updateEntryAt (uri : List (List Char)) (nm : List Char)
    (entries : List (List Char × Entry)) (f : FileEntry → FileEntry) (fe : FileEntry)
    (h : lookupFrom (.dir nm entries) uri = some (.file fe)) :
    lookupFrom (.dir nm (updateEntryAt entries uri f)) uri = some (.file (f fe)) := by
  induction uri generalizing nm entries with
  | nil => simp [lookupFrom] at h
  | cons p rest ih =>
    match rest with
    | [] =>
      simp only [lookupFrom] at h ⊢
      cases hget : alGet p entries with
      | none => rw [hget] at h; exact absurd h (by simp)
      | some child =>
        rw [hget] at h
        cases child with
        | file fe' =>
          simp only [lookupFrom, Option.some.injEq, Entry.file.injEq] at h
          subst h
          simp [updateEntryAt, hget, alGet_alSet_self, lookupFrom]
        | dir n' es' => simp [lookupFrom] at h
    | q :: ps =>
      simp only [lookupFrom] at h ⊢
      cases hget : alGet p entries with
      | none => rw [hget] at h; exact absurd h (by simp)
      | some child =>
        rw [hget] at h
        cases child with
        | file fe' => simp [lookupFrom] at h
        | dir n' es' =>
          have := ih n' es' h
          simp only [updateEntryAt, hget, alGet_alSet_self]
          exact this

end GtmSense

namespace GtmSense

/-! ## Claim C6: silent no-op policy -/

/-- **C6**: replacing a section whose marker name does not occur among the
parsed sections returns the document unchanged, and `updateCode` on an entity
with no parameter list returns the entity unchanged; neither signals an
error. -/
theorem c6_silent_noop :
    (∀ (d M c : List Char), (∀ s ∈ parseTemplateSections d, s.name ≠ M) →
        updateTemplateSection d M c = d) ∧
    (∀ (item : GtmResource) (c : List Char), item.parameter = none →
        updateCode item c = item) := by
  constructor
  · intro d M c h
    have hf : (parseTemplateSections d).findIdx? (fun s => decide (s.name = M)) = none := by
      rw [List.findIdx?_eq_none_iff]
      intro s hs
      simpa using h s hs
    unfold updateTemplateSection
    simp only [hf]
  · intro item c h
    unfold updateCode
    rw [h]

/-- Witness for C6 at concrete inputs. -/
theorem c6_silent_noop_witness :
    updateTemplateSection "___A___x".toList "NONEXISTENT".toList "y".toList = "___A___x".toList ∧
    updateCode { name := "t".toList, rtype := [], parameter := none, fingerprint := [], path := [] }
        "z".toList =
      { name := "t".toList, rtype := [], parameter := none, fingerprint := [], path := [] } :=
  ⟨c6_silent_noop.1 _ _ _ (by decide), c6_silent_noop.2 _ _ rfl⟩

/-! ## Claim C9: extractCode precedence -/

/-- Counterexample to C9 as stated: an entity whose first `html` parameter has
an empty value while a second `html` parameter has the non-empty value `"X"`;
a parameter keyed `html` with non-empty value exists, yet `extractCode`
returns the empty string, not that value. -/
theorem c9_counterexample :
    (∃ p ∈ c9item.parameter.getD [], p.key = "html".toList ∧ p.value = some "X".toList) ∧
    ("X".toList : List Char) ≠ [] ∧
    extractCode c9item ≠ "X".toList ∧ extractCode c9item = [] := by
  decide

/-- **C9 (amended)**: `extractCode` returns the value of the *first* parameter
keyed `html` if that value is present and non-empty, otherwise the value of
the first parameter keyed `javascript` if present and non-empty, otherwise the
empty string — independently of the entity kind, with empty values treated as
absent. -/
theorem c9_extract_code_precedence (item : GtmResource) :
    extractCode item = extractCodeSpec item := by
  unfold extractCode extractCodeSpec firstTruthyValue extractCode.extractCodeJs
  cases hp : item.parameter with
  | none => rfl
  | some params =>
    (repeat' split) <;> simp_all

/-! ## Claim C7: error taxonomy of readFile / readDirectory -/

/-- Counterexample to C7 as stated: reading a directory address as a file
fails with `fileNotFound` (not a kind-mismatch error distinct from not-found),
and listing a non-existent address fails with `fileNotADirectory` (not with
not-found). -/
theorem c7_counterexample :
    c7state.readFile ["d".toList] = .error .fileNotFound ∧
    c7state.readDirectory ["missing".toList] = .error .fileNotADirectory ∧
    FsError.fileNotFound ≠ FsError.fileNotADirectory :=
  ⟨rfl, rfl, fun h => nomatch h⟩

/-- **C7 (amended)**: `readFile` fails with `fileNotFound` both on missing
addresses and on addresses resolving to directories; `readDirectory` fails
with `fileNotADirectory` both on missing addresses and on addresses resolving
to files; the two operations' failure kinds are distinct from each other, but
within each operation the two causes share one error. -/
theorem c7_error_taxonomy (st : FsState) (uri : List (List Char)) :
    (st.readFile uri = match st.lookup uri with
      | some (.file f) => .ok f.data
      | _ => .error .fileNotFound) ∧
    (st.readDirectory uri = match st.lookup uri with
      | some (.dir _ es) => .ok (es.map (fun p => (p.1, entryKind p.2)))
      | _ => .error .fileNotADirectory) ∧
    FsError.fileNotFound ≠ FsError.fileNotADirectory := by
  refine ⟨?_, ?_, fun h => nomatch h⟩
  · unfold FsState.readFile FsState.lookupAsFile
    cases h : st.lookup uri with
    | none => rfl
    | some e => cases e <;> rfl
  · unfold FsState.readDirectory FsState.lookupAsDirectory
    cases h : st.lookup uri with
    | none => rfl
    | some e => cases e <;> rfl

/-! ## Claim C2: push all-or-nothing clear -/

/-- **C2**: after a push with zero failures the modified-files map is empty;
after a push with at least one failure it is exactly what it was before the
push (entries whose individual remote update succeeded included). -/
theorem c2_push_all_or_nothing (st : FsState) (oracle : Oracle) :
    (st.pushChanges oracle).1.modifiedFiles =
      if (st.pushChanges oracle).2.1.failed = 0 then [] else st.modifiedFiles := rfl

/-! ## Claim C8: loaded-twice rejection -/

/-- **C8**: loading a (container, workspace) pair whose composite key is
already present is rejected with the whole state — tree, container metadata
and variable-name cache included — left unchanged; and a first load does make
the pair present, so an immediate second load is always the rejected case. -/
theorem c8_loaded_twice_rejection (st : FsState)
    (cName pId wPath wName : List Char)
    (tags vars : List GtmResource) (tps : List GtmTemplateR)
    (h : st.hasContainer cName wName = true) :
    st.loadContainerChecked cName pId wPath wName tags vars tps = (st, false) ∧
    ∀ (pId' wPath' : List Char) (tags' vars' : List GtmResource) (tps' : List GtmTemplateR),
      (st.addContainer cName pId' wPath' wName tags' vars' tps').hasContainer cName wName
        = true := by
  constructor
  · unfold FsState.loadContainerChecked
    rw [h]
    rfl
  · intro pId' wPath' tags' vars' tps'
    unfold FsState.hasContainer FsState.addContainer alHas
    simp [alGet_alSet_self]

/-- Witness for C8: load a concrete pair once, then observe the second load
is rejected without mutation. -/
theorem c8_loaded_twice_rejection_witness :
    ((FsState.mk [] [] [] []).addContainer "C".toList "GTM-1".toList "wp".toList "W".toList
        [] [] []).loadContainerChecked "C".toList "GTM-2".toList "wp2".toList "W".toList [] [] []
      = (((FsState.mk [] [] [] []).addContainer "C".toList "GTM-1".toList "wp".toList "W".toList
        [] [] []), false) :=
  (c8_loaded_twice_rejection _ _ _ _ _ _ _ _ (by decide)).1

end GtmSense

namespace GtmSense

/-! ## Claim C1: dirty-state invariant at a written address -/

/-- **C1**: writing `content` to a file address leaves the buffer at that
address equal to `content`, and the address is in the modified set exactly
when `content` differs from the canonical content derived from the entity
(`extractItemCode`) or a rename is staged for the address; in particular
writing canonical content with no staged rename removes the address from the
modified set. -/
theorem c1_dirty_state_invariant (st : FsState) (uri : List (List Char)) (content : List Char)
    (entry : FileEntry)
    (hf : st.lookupAsFile uri = .ok entry)
    (hk : (st.modifiedFiles.map Prod.fst).Nodup) :
    ∃ st', st.writeFile uri content = .ok st' ∧
      st'.readFile uri = .ok content ∧
      (st'.isModified uri = true ↔
        (content ≠ extractItemCode entry.gtmItem entry.itemType entry.sectionName ∨
          stagedRename st uri = true)) ∧
      ((content = extractItemCode entry.gtmItem entry.itemType entry.sectionName ∧
          stagedRename st uri = false) → st'.isModified uri = false) := by
  have hl : st.lookup uri = some (.file entry) := by
    unfold FsState.lookupAsFile at hf
    cases h : st.lookup uri with
    | none => rw [h] at hf; exact absurd hf (by simp)
    | some e =>
      rw [h] at hf
      cases e with
      | file fe =>
        simp only [Except.ok.injEq] at hf
        rw [hf]
      | dir n es => exact absurd hf (by simp)
  have hstaged : (match alGet uri st.modifiedFiles with
      | some m => m.newName.isSome
      | none => false) = stagedRename st uri := rfl
  have hw : st.writeFile uri content = .ok
      { st with
          root := updateEntryAt st.root uri (fun fe => { fe with data := content })
          modifiedFiles :=
            if content ≠ extractItemCode entry.gtmItem entry.itemType entry.sectionName ∨
                (match alGet uri st.modifiedFiles with
                 | some m => m.newName.isSome
                 | none => false) = true then
              alSet uri
                { uri := uri
                  containerName := seg uri 0
                  folder := seg uri 1
                  fileName := entry.name
                  itemType := entry.itemType
                  gtmItem := entry.gtmItem
                  newCode := content
                  newName := (alGet uri st.modifiedFiles).bind (fun m => m.newName)
                  sectionName := entry.sectionName } st.modifiedFiles
            else alDelete uri st.modifiedFiles } := by
    unfold FsState.writeFile
    rw [hf]
  refine ⟨_, hw, ?_, ?_, ?_⟩
  · unfold FsState.readFile FsState.lookupAsFile FsState.lookup
    have := lookupFrom_updateEntryAt uri [] st.root
      (fun fe => { fe with data := content }) entry hl
    simp only [this]
    rfl
  · unfold FsState.isModified alHas
    simp only [hstaged]
    by_cases hc : content ≠ extractItemCode entry.gtmItem entry.itemType entry.sectionName ∨
        stagedRename st uri = true
    · rw [if_pos hc, alGet_alSet_self]
      simpa using hc
    · rw [if_neg hc, alGet_alDelete_self_of_nodup uri st.modifiedFiles hk]
      simpa using hc
  · intro ⟨h1, h2⟩
    unfold FsState.isModified alHas
    simp only [hstaged]
    rw [if_neg (by simp [h1, h2]), alGet_alDelete_self_of_nodup uri st.modifiedFiles hk]
    rfl

/-- Witness for C1 at a concrete one-tag state. -/
theorem c1_dirty_state_invariant_witness :
    ∃ st', w1state.writeFile w1uri "new".toList = .ok st' ∧
      st'.readFile w1uri = .ok "new".toList ∧
      (st'.isModified w1uri = true ↔
        ("new".toList ≠ extractItemCode w1entry.gtmItem w1entry.itemType w1entry.sectionName ∨
          stagedRename w1state w1uri = true)) ∧
      (("new".toList = extractItemCode w1entry.gtmItem w1entry.itemType w1entry.sectionName ∧
          stagedRename w1state w1uri = false) → st'.isModified w1uri = false) :=
  c1_dirty_state_invariant w1state w1uri "new".toList w1entry rfl (by simp [w1state])

end GtmSense

namespace GtmSense

/-! ## Claim C4: one update call per template -/

theorem alGet_ne_none_of_mem_keys {K V : Type} [DecidableEq K] (k : K) (l : List (K × V))
    (h : k ∈ l.map Prod.fst) : alGet k l ≠ none := by
  induction l with
  | nil => simp at h
  | cons hd tl ih =>
    obtain ⟨k', v'⟩ := hd
    by_cases hk : k' = k
    · simp [alGet, hk]
    · simp only [List.map_cons, List.mem_cons] at h
      rcases h with h | h
    

      · exact absurd h.symm hk
      · simp [alGet, hk, ih h]

theorem keys_alSet_of_mem {K V : Type} [DecidableEq K] (k : K) (v w : V) (l : List (K × V))
    (h : alGet k l = some w) : (alSet k v l).map Prod.fst = l.map Prod.fst := by
  induction l with
  | nil => simp [alGet] at h
  | cons hd tl ih =>
    obtain ⟨k', v'⟩ := hd
    by_cases hk : k' = k
    · simp [alSet, hk]
    · simp only [alGet, if_neg hk] at h
      simp [alSet, hk, ih h]

theorem filter_key_nil_of_not_mem {K V : Type} [DecidableEq K] (p : K) (l : List (K × V))
    (h : p ∉ l.map Prod.fst) : l.filter (fun x => decide (x.1 = p)) = [] := by
  induction l with
  | nil => rfl
  | cons hd tl ih =>
    obtain ⟨k', v'⟩ := hd
    simp only [List.map_cons, List.mem_cons] at h
    push_neg at h
    have hne : ¬ k' = p := fun hh => h.1 hh.symm
    simp [List.filter_cons, hne, ih h.2]

theorem filter_key_of_nodup {K V : Type} [DecidableEq K] (p : K) (v : V) (l : List (K × V))
    (hn : (l.map Prod.fst).Nodup) (h : alGet p l = some v) :
    l.filter (fun x => decide (x.1 = p)) = [(p, v)] := by
  induction l with
  | nil => simp [alGet] at h
  | cons hd tl ih =>
    obtain ⟨k', v'⟩ := hd
    simp only [List.map_cons, List.nodup_cons] at hn
    by_cases hk : k' = p
    · subst hk
      have hv : v' = v := by simpa [alGet] using h
      subst hv
      simp [List.filter_cons, filter_key_nil_of_not_mem k' tl hn.1]
    · simp only [alGet, if_neg hk] at h
      simp [List.filter_cons, hk, ih hn.2 h]

/-- The grouping map has pairwise distinct template paths. -/
theorem groupTemplateChanges_keys_nodup (mods : List ModifiedFile) :
    ((groupTemplateChanges mods).map Prod.fst).Nodup := by
  unfold groupTemplateChanges
  suffices h : ∀ acc : List (List Char × GtmItem × List (List Char × List Char)),
      (acc.map Prod.fst).Nodup →
      ((mods.foldl (fun acc m =>
        match m.itemType, m.sectionName with
        | .templateSection, some sn =>
          if sn.isEmpty then acc
          else
            let tpath := m.gtmItem.itemPath
            match alGet tpath acc with
            | none => acc ++ [(tpath, m.gtmItem, [(sn, m.newCode)])]
            | some (tpl, secs) => alSet tpath (tpl, alSet sn m.newCode secs) acc
        | _, _ => acc) acc).map Prod.fst).Nodup by
    exact h [] (by simp)
  induction mods with
  | nil => intro acc ha; simpa using ha
  | cons m rest ih =>
    intro acc ha
    simp only [List.foldl_cons]
    apply ih
    cases hit : m.itemType <;> cases hsn : m.sectionName <;> simp only [hit, hsn] <;>
        try exact ha
    rename_i sn
    by_cases he : sn.isEmpty
    · simpa [he] using ha
    · simp only [he, if_false, Bool.false_eq_true]
      cases hget : alGet m.gtmItem.itemPath acc with
      | none =>
        simp only [List.map_append, List.map_cons, List.map_nil]
        rw [List.nodup_append]
        refine ⟨ha, by simp, ?_⟩
        intro a haa
        simp only [List.mem_singleton]
        intro hb
        subst hb
        exact absurd haa (fun hmem => alGet_ne_none_of_mem_keys _ acc hmem hget)
      | some pr =>
        obtain ⟨tpl, secs⟩ := pr
        rw [keys_alSet_of_mem _ _ _ _ hget]
        exact ha

/-- Every push branch records the single issued call in the trace. -/
theorem pushOneTemplate_trace (mods : List ModifiedFile) (oracle : Oracle) (ps : PushState)
    (tpath : List Char) (tpl : GtmItem) (secs : List (List Char × List Char)) :
    (pushOneTemplate mods oracle ps tpath tpl secs).trace =
      ps.trace ++ [.updTemplate tpath (asTemplatePayload tpl
        (secs.foldl (fun d q => updateTemplateSection d q.1 q.2) tpl.templateDataOf))] := by
  unfold pushOneTemplate
  cases oracle ps.callIdx with
  | ok pushed =>
    rcases h : updateSectionEntries mods tpath pushed ps.root with ⟨root', b⟩
    cases b <;> simp [h]
  | error msg => rfl

theorem foldl_pushOneTemplate_trace (mods : List ModifiedFile) (oracle : Oracle)
    (groups : List (List Char × GtmItem × List (List Char × List Char))) (ps : PushState) :
    ((groups.foldl (fun ps g => pushOneTemplate mods oracle ps g.1 g.2.1 g.2.2) ps)).trace =
      ps.trace ++ groups.map (fun g => .updTemplate g.1 (asTemplatePayload g.2.1
        (g.2.2.foldl (fun d q => updateTemplateSection d q.1 q.2) g.2.1.templateDataOf))) := by
  induction groups generalizing ps with
  | nil => simp
  | cons g rest ih =>
    simp only [List.foldl_cons, List.map_cons]
    rw [ih, pushOneTemplate_trace]
    simp

theorem pushOneItem_trace_filter (oracle : Oracle) (ps : PushState) (m : ModifiedFile)
    (p : List Char) :
    ((pushOneItem oracle ps m).trace).filter (isTemplateCallAt p) =
      ps.trace.filter (isTemplateCallAt p) := by
  unfold pushOneItem
  by_cases hts : m.itemType = .templateSection
  · simp [hts]
  · simp only [hts, if_false]
    cases horacle : oracle ps.callIdx with
    | ok pushed =>
      cases hlook : lookupFrom (.dir [] ps.root) m.uri with
      | none =>
        by_cases htag : m.itemType = .tag <;>
          simp [htag, List.filter_append, isTemplateCallAt]
      | some e =>
        cases e <;> (by_cases htag : m.itemType = .tag <;>
          simp [htag, List.filter_append, isTemplateCallAt])
    | error msg =>
      by_cases htag : m.itemType = .tag <;>
        simp [htag, List.filter_append, isTemplateCallAt]

theorem foldl_pushOneItem_trace_filter (oracle : Oracle) (mods : List ModifiedFile)
    (ps : PushState) (p : List Char) :
    (((mods.foldl (fun ps m => pushOneItem oracle ps m) ps)).trace).filter (isTemplateCallAt p) =
      ps.trace.filter (isTemplateCallAt p) := by
  induction mods generalizing ps with
  | nil => rfl
  | cons m rest ih =>
    simp only [List.foldl_cons]
    rw [ih, pushOneItem_trace_filter]

/-- **C4**: when the pending set stages two or more section edits of one
template, the push issues exactly one template-update call for that template
path, whose document is the template's last-synced `templateData` with every
pending section's new content applied via `updateTemplateSection`. -/
theorem c4_template_grouping (st : FsState) (oracle : Oracle) (p : List Char)
    (tpl : GtmItem) (secs : List (List Char × List Char))
    (hg : alGet p (groupTemplateChanges (st.modifiedFiles.map Prod.snd)) = some (tpl, secs))
    (_h2 : 2 ≤ secs.length) :
    ((st.pushChanges oracle).2.2).filter (isTemplateCallAt p) =
      [.updTemplate p (asTemplatePayload tpl
        (secs.foldl (fun d q => updateTemplateSection d q.1 q.2) tpl.templateDataOf))] := by
  have htrace : (st.pushChanges oracle).2.2 =
      (((st.modifiedFiles.map Prod.snd).foldl (fun ps m => pushOneItem oracle ps m)
        ((groupTemplateChanges (st.modifiedFiles.map Prod.snd)).foldl
          (fun ps g => pushOneTemplate (st.modifiedFiles.map Prod.snd) oracle ps g.1 g.2.1 g.2.2)
          { root := st.root, callIdx := 0, success := 0, failed := 0, errors := [],
            trace := [] }))).trace := rfl
  rw [htrace, foldl_pushOneItem_trace_filter, foldl_pushOneTemplate_trace]
  simp only [List.nil_append]
  rw [List.filter_map]
  have hcomp : ((isTemplateCallAt p) ∘ (fun g : List Char × GtmItem × List (List Char × List Char) =>
      RemoteCall.updTemplate g.1 (asTemplatePayload g.2.1
        (g.2.2.foldl (fun d q => updateTemplateSection d q.1 q.2) g.2.1.templateDataOf)))) =
      fun g => decide (g.1 = p) := by
    funext g
    rfl
  rw [hcomp, filter_key_of_nodup p (tpl, secs) _
    (groupTemplateChanges_keys_nodup (st.modifiedFiles.map Prod.snd)) hg]
  rfl

/-- Witness for C4: two pending section edits of one template produce exactly
one update call carrying both changes. -/
theorem c4_template_grouping_witness :
    ((wc4state.pushChanges (fun _ => Except.error "e".toList)).2.2).filter
        (isTemplateCallAt "t/1".toList) =
      [.updTemplate "t/1".toList (asTemplatePayload (.template wc4tpl)
        (([("AAA".toList, "x2".toList), ("BBB".toList, "y2".toList)]).foldl
          (fun d q => updateTemplateSection d q.1 q.2) (GtmItem.template wc4tpl).templateDataOf))] :=
  c4_template_grouping wc4state (fun _ => Except.error "e".toList) "t/1".toList
    (.template wc4tpl) [("AAA".toList, "x2".toList), ("BBB".toList, "y2".toList)]
    (by decide) (by decide)

end GtmSense

namespace GtmSense

/-! ## Claim C5: rename then discard restores name and content -/

theorem extractItemCode_none (item : GtmItem) (it : ItemType) :
    extractItemCode item it none = extractCodeOfItem item := by
  cases it <;> rfl

theorem updateEntryAt_three (root : List (List Char × Entry)) (c f n : List Char)
    (cn fn : List Char) (cen fen : List (List Char × Entry)) (fe : FileEntry)
    (g : FileEntry → FileEntry)
    (h1 : alGet c root = some (.dir cn cen))
    (h2 : alGet f cen = some (.dir fn fen))
    (h3 : alGet n fen = some (.file fe)) :
    updateEntryAt root [c, f, n] g =
      alSet c (.dir cn (alSet f (.dir fn (alSet n (.file (g fe)) fen)) cen)) root := by
  simp [updateEntryAt, h1, h2, h3]

theorem lookupFrom_three (root : List (List Char × Entry)) (nm c f n : List Char)
    (cn fn : List Char) (cen fen : List (List Char × Entry)) (e : Entry)
    (h1 : alGet c root = some (.dir cn cen))
    (h2 : alGet f cen = some (.dir fn fen))
    (h3 : alGet n fen = some e) :
    lookupFrom (.dir nm root) [c, f, n] = some e := by
  simp [lookupFrom, h1, h2, h3]

/-- **C5**: renaming a tag/variable file that has a pending code edit and then
discarding at the renamed address puts the node back under the name derived
from the entity's display name, with its buffer equal to the canonical
content, and leaves no pending change at either address. -/
theorem c5_rename_then_discard (st : FsState) (c f : List Char) (cn fn : List Char)
    (centries fentries : List (List Char × Entry)) (entry : FileEntry) (r : GtmResource)
    (m0 : ModifiedFile) (newName : List Char)
    (h1 : alGet c st.root = some (.dir cn centries))
    (h2 : alGet f centries = some (.dir fn fentries))
    (h3 : alGet entry.name fentries = some (.file entry))
    (h5 : entry.gtmItem = .resource r)
    (_h6 : entry.itemType = .tag ∨ entry.itemType = .variable)
    (h7 : alGet [c, f, entry.name] st.modifiedFiles = some m0)
    (_h8 : m0.newName = none)
    (h9 : newName.isEmpty = false)
    (hk : (st.modifiedFiles.map Prod.fst).Nodup) :
    ∃ st1 stF,
      st.renameFile [c, f, entry.name] newName =
        .ok (st1, [c, f, sanitizeFileName newName ++ ".js".toList]) ∧
      st1.discardOne [c, f, sanitizeFileName newName ++ ".js".toList] = .ok stF ∧
      stF.lookup [c, f, sanitizeFileName r.name ++ ".js".toList] =
        some (.file
          { name := sanitizeFileName r.name ++ ".js".toList
            data := extractCode r
            gtmItem := entry.gtmItem
            itemType := entry.itemType
            sectionName := none }) ∧
      stF.isModified [c, f, entry.name] = false ∧
      stF.isModified [c, f, sanitizeFileName newName ++ ".js".toList] = false := by
  obtain ⟨en, ed, eg, eit, esn⟩ := entry
  dsimp only at h3 h5 h7 ⊢
  subst h5
  have hlf : st.lookupAsFile [c, f, en] =
      .ok { name := en, data := ed, gtmItem := .resource r, itemType := eit, sectionName := esn } := by
    unfold FsState.lookupAsFile FsState.lookup
    rw [lookupFrom_three st.root [] c f en cn fn centries fentries _ h1 h2 h3]
  set nf := sanitizeFileName newName ++ ".js".toList with hnf
  set ofn := sanitizeFileName r.name ++ ".js".toList with hofn
  set newE : FileEntry :=
    { name := nf
      data := ed
      gtmItem := .resource r
      itemType := eit
      sectionName := none } with hnewE
  set M1 : ModifiedFile :=
    { uri := [c, f, nf]
      containerName := c
      folder := f
      fileName := nf
      itemType := eit
      gtmItem := .resource r
      newCode := m0.newCode
      newName := some newName
      sectionName := none } with hM1
  set fentries2 := alSet nf (Entry.file newE) (alDelete en fentries) with hfen2
  set centries2 := alSet f (Entry.dir fn fentries2) centries with hcen2
  set root1 := alSet c (Entry.dir cn centries2) st.root with hroot1
  set st1 : FsState :=
    { st with
        root := root1
        variableNames :=
          if eit = .variable then
            alSet c (replaceFirst ((alGet c st.variableNames).getD []) r.name newName)
              st.variableNames
          else st.variableNames
        modifiedFiles := alSet [c, f, nf] M1 (alDelete [c, f, en] st.modifiedFiles) }
    with hst1
  have hrename : st.renameFile [c, f, en] newName = .ok (st1, [c, f, nf]) := by
    simp only [hst1, hroot1, hcen2, hfen2, hnewE, hM1, hnf]
    simp [FsState.renameFile, hlf, seg, h1, h2, h7, GtmItem.itemName]
  set originalCode := extractItemCode (GtmItem.resource r) eit none with horig
  set newE2 : FileEntry :=
    { name := nf
      data := originalCode
      gtmItem := .resource r
      itemType := eit
      sectionName := none } with hnewE2
  set fentries3 := alSet nf (Entry.file newE2) fentries2 with hfen3
  set centries3 := alSet f (Entry.dir fn fentries3) centries2 with hcen3
  set root2 := alSet c (Entry.dir cn centries3) root1 with hroot2
  set st2 : FsState := { st1 with root := root2 } with hst2
  have hlf1 : st1.lookupAsFile [c, f, nf] = .ok newE := by
    unfold FsState.lookupAsFile FsState.lookup
    rw [lookupFrom_three st1.root [] c f nf cn fn centries2 fentries2 (.file newE)
      (alGet_alSet_self _ _ _) (alGet_alSet_self _ _ _) (alGet_alSet_self _ _ _)]
  have hdiscard1 : st1.discardOne [c, f, nf] = .ok (restoreOriginalName st2 [c, f, nf] M1) := by
    unfold FsState.discardOne
    rw [show alGet [c, f, nf] st1.modifiedFiles = some M1 from alGet_alSet_self _ _ _, hlf1]
    dsimp only
    simp only [h9, Bool.false_eq_true, if_false]
    rw [updateEntryAt_three root1 c f nf cn fn centries2 fentries2 newE
      (fun fe => { fe with data := extractItemCode (GtmItem.resource r) eit none })
      (alGet_alSet_self _ _ _) (alGet_alSet_self _ _ _) (alGet_alSet_self _ _ _)]
  set finalE : FileEntry :=
    { name := ofn
      data := originalCode
      gtmItem := .resource r
      itemType := eit
      sectionName := none } with hfinalE
  set fentries4 := alSet ofn (Entry.file finalE) (alDelete nf fentries3) with hfen4
  set centries4 := alSet f (Entry.dir fn fentries4) centries3 with hcen4
  set root3 := alSet c (Entry.dir cn centries4) root2 with hroot3
  have hrootF : (restoreOriginalName st2 [c, f, nf] M1).root = root3 := by
    unfold restoreOriginalName
    dsimp only [seg, List.drop_succ_cons, List.drop_zero, List.headD_cons]
    rw [show alGet c st2.root = some (Entry.dir cn centries3) from alGet_alSet_self _ _ _]
    dsimp only
    rw [show alGet f centries3 = some (Entry.dir fn fentries3) from alGet_alSet_self _ _ _]
    dsimp only
    rw [show alGet M1.fileName fentries3 = some (Entry.file newE2) from alGet_alSet_self _ _ _]
    dsimp only [GtmItem.itemName]
  have hmfF : (restoreOriginalName st2 [c, f, nf] M1).modifiedFiles =
      alDelete [c, f, nf] (alDelete [c, f, en] st.modifiedFiles) := by
    unfold restoreOriginalName
    dsimp only [seg, List.drop_succ_cons, List.drop_zero, List.headD_cons]
    rw [show alGet c st2.root = some (Entry.dir cn centries3) from alGet_alSet_self _ _ _]
    dsimp only
    rw [show alGet f centries3 = some (Entry.dir fn fentries3) from alGet_alSet_self _ _ _]
    dsimp only
    rw [show alGet M1.fileName fentries3 = some (Entry.file newE2) from alGet_alSet_self _ _ _]
    dsimp only
    rw [alDelete_alSet]
  refine ⟨st1, restoreOriginalName st2 [c, f, nf] M1, hrename, hdiscard1, ?_, ?_, ?_⟩
  · unfold FsState.lookup
    rw [hrootF]
    rw [lookupFrom_three root3 [] c f ofn cn fn centries4 fentries4 (.file finalE)
      (alGet_alSet_self _ _ _) (alGet_alSet_self _ _ _) (alGet_alSet_self _ _ _)]
    rw [hfinalE, horig, extractItemCode_none]
    rfl
  · unfold FsState.isModified alHas
    rw [hmfF]
    by_cases heq : ([c, f, en] : List (List Char)) = [c, f, nf]
    · rw [heq]
      rw [alGet_alDelete_self_of_nodup _ _ (nodup_keys_alDelete _ _ hk)]
      rfl
    · rw [alGet_alDelete_ne _ _ _ (fun hh => heq hh.symm)]
      rw [alGet_alDelete_self_of_nodup _ _ hk]
      rfl
  · unfold FsState.isModified alHas
    rw [hmfF]
    rw [alGet_alDelete_self_of_nodup _ _ (nodup_keys_alDelete _ _ hk)]
    rfl

end GtmSense

namespace GtmSense

/-- Witness for C5: rename the concrete tag file, then discard at the new
address. -/
theorem c5_rename_then_discard_witness :
    ∃ st1 stF,
      w5state.renameFile ["C (W)".toList, "tags".toList, w1entry.name] "T2".toList =
        .ok (st1, ["C (W)".toList, "tags".toList, sanitizeFileName "T2".toList ++ ".js".toList]) ∧
      st1.discardOne ["C (W)".toList, "tags".toList,
        sanitizeFileName "T2".toList ++ ".js".toList] = .ok stF ∧
      stF.lookup ["C (W)".toList, "tags".toList, sanitizeFileName w1res.name ++ ".js".toList] =
        some (.file
          { name := sanitizeFileName w1res.name ++ ".js".toList
            data := extractCode w1res
            gtmItem := w1entry.gtmItem
            itemType := w1entry.itemType
            sectionName := none }) ∧
      stF.isModified ["C (W)".toList, "tags".toList, w1entry.name] = false ∧
      stF.isModified ["C (W)".toList, "tags".toList,
        sanitizeFileName "T2".toList ++ ".js".toList] = false :=
  c5_rename_then_discard w5state "C (W)".toList "tags".toList _ _ _ _ w1entry w1res w5mod
    "T2".toList rfl rfl rfl rfl (Or.inl rfl) rfl rfl rfl (by simp [w5state])

end GtmSense

namespace GtmSense

/-! ## Codec groundwork: JavaScript trim -/

theorem dropWhile_append_all {p : Char → Bool} (w x : List Char) (hw : ∀ a ∈ w, p a = true) :
    (w ++ x).dropWhile p = x.dropWhile p := by
  induction w with
  | nil => rfl
  | cons a w' ih =>
    rw [List.cons_append, List.dropWhile_cons_of_pos (hw a (by simp))]
    exact ih (fun b hb => hw b (by simp [hb]))

theorem head?_dropWhile_false {p : Char → Bool} (l : List Char) (a : Char)
    (h : (l.dropWhile p).head? = some a) : p a = false := by
  induction l with
  | nil => simp [List.dropWhile] at h
  | cons b l' ih =>
    by_cases hb : p b
    · rw [List.dropWhile_cons_of_pos hb] at h
      exact ih h
    · rw [List.dropWhile_cons_of_neg hb] at h
      simp only [List.head?_cons, Option.some.injEq] at h
      subst h
      simpa using hb

theorem dropWhile_eq_self_of_head {p : Char → Bool} (l : List Char)
    (h : ∀ a, l.head? = some a → p a = false) : l.dropWhile p = l := by
  cases l with
  | nil => rfl
  | cons b l' =>
    rw [List.dropWhile_cons_of_neg]
    simp [h b rfl]

theorem trimList_head_ws (x : List Char) (a : Char) (h : (trimList x).head? = some a) :
    isJsSpace a = false := by
  unfold trimList at h
  rw [List.head?_reverse] at h
  obtain ⟨t, ht⟩ := List.dropWhile_suffix (l := (x.dropWhile isJsSpace).reverse) isJsSpace
  have h2 : (x.dropWhile isJsSpace).reverse.getLast? = some a := by
    rw [← ht, List.getLast?_append, h]
    rfl
  rw [List.getLast?_reverse] at h2
  exact head?_dropWhile_false x a h2

theorem trimList_idem (x : List Char) : trimList (trimList x) = trimList x := by
  have h1 : (trimList x).dropWhile isJsSpace = trimList x :=
    dropWhile_eq_self_of_head _ (fun a ha => trimList_head_ws x a ha)
  conv_lhs => rw [trimList]
  rw [h1]
  rw [show (trimList x).reverse = (x.dropWhile isJsSpace).reverse.dropWhile isJsSpace from by
    rw [trimList, List.reverse_reverse]]
  rw [List.dropWhile_idempotent, ← trimList]

theorem trimList_ws_left (w x : List Char) (hw : ∀ a ∈ w, isJsSpace a = true) :
    trimList (w ++ x) = trimList x := by
  unfold trimList
  rw [dropWhile_append_all w x hw]

theorem trimList_ws_right (x w : List Char) (hw : ∀ a ∈ w, isJsSpace a = true) :
    trimList (x ++ w) = trimList x := by
  unfold trimList
  rw [List.dropWhile_append]
  by_cases hx : (x.dropWhile isJsSpace).isEmpty
  · rw [if_pos hx]
    have hxe : x.dropWhile isJsSpace = [] := by simpa using hx
    have hwe : w.dropWhile isJsSpace = [] := by
      rw [List.dropWhile_eq_nil_iff]
      exact fun a ha => hw a ha
    rw [hxe, hwe]
  · rw [if_neg hx]
    rw [List.reverse_append,
      dropWhile_append_all _ _ (by intro a ha; exact hw a (by simpa using ha))]

/-! ## Codec groundwork: single match attempts -/

theorem matchAt_head_not_us (c : Char) (s : List Char) (hc : ¬ c = '_') :
    matchAt (c :: s) = none := by
  unfold matchAt
  rw [if_neg]
  intro h
  rw [show us3 = ['_', '_', '_'] from rfl] at h
  rw [show (c :: s).take 3 = c :: s.take 2 from rfl] at h
  exact hc (by injection h)

theorem matchAt_second_newline (a : Char) (s : List Char) :
    matchAt (a :: '\n' :: s) = none := by
  unfold matchAt
  rw [if_neg]
  intro h
  rw [show us3 = ['_', '_', '_'] from rfl] at h
  rw [show (a :: '\n' :: s).take 3 = a :: '\n' :: s.take 1 from rfl] at h
  injection h with h1 h2
  injection h2 with h2 h3
  exact absurd h2 (by decide)

theorem matchAt_third_newline (a b : Char) (s : List Char) :
    matchAt (a :: b :: '\n' :: s) = none := by
  unfold matchAt
  rw [if_neg]
  intro h
  rw [show us3 = ['_', '_', '_'] from rfl] at h
  rw [show (a :: b :: '\n' :: s).take 3 = a :: b :: '\n' :: s.take 0 from rfl] at h
  injection h with h1 h2
  injection h2 with h2 h3
  injection h3 with h3 h4
  exact absurd h3 (by decide)

theorem takeWhile_class_append_newline (x t : List Char) :
    ((x ++ '\n' :: t).takeWhile isClassChar) = ((x ++ ['\n']).takeWhile isClassChar) := by
  induction x with
  | nil =>
    rw [List.nil_append, List.nil_append]
    rw [List.takeWhile_cons_of_neg (by decide), List.takeWhile_cons_of_neg (by decide)]
  | cons a x' ih =>
    rw [List.cons_append, List.cons_append]
    by_cases ha : isClassChar a
    · rw [List.takeWhile_cons_of_pos ha, List.takeWhile_cons_of_pos ha, ih]
    · rw [List.takeWhile_cons_of_neg ha, List.takeWhile_cons_of_neg ha]

theorem matchAt_append_newline (x t : List Char) :
    matchAt (x ++ '\n' :: t) = matchAt (x ++ ['\n']) := by
  match x with
  | [] =>
    rw [List.nil_append, List.nil_append,
      matchAt_head_not_us '\n' t (by decide), matchAt_head_not_us '\n' [] (by decide)]
  | [a] =>
    rw [show [a] ++ '\n' :: t = a :: '\n' :: t from rfl,
      show [a] ++ ['\n'] = a :: '\n' :: ([] : List Char) from rfl,
      matchAt_second_newline, matchAt_second_newline]
  | [a, b] =>
    rw [show [a, b] ++ '\n' :: t = a :: b :: '\n' :: t from rfl,
      show [a, b] ++ ['\n'] = a :: b :: '\n' :: ([] : List Char) from rfl,
      matchAt_third_newline, matchAt_third_newline]
  | a :: b :: c :: x' =>
    unfold matchAt
    rw [show (a :: b :: c :: x' ++ '\n' :: t).take 3 = [a, b, c] from rfl,
      show (a :: b :: c :: x' ++ ['\n']).take 3 = [a, b, c] from rfl,
      show (a :: b :: c :: x' ++ '\n' :: t).drop 3 = x' ++ '\n' :: t from rfl,
      show (a :: b :: c :: x' ++ ['\n']).drop 3 = x' ++ ['\n'] from rfl,
      takeWhile_class_append_newline x' t]

end GtmSense

namespace GtmSense

/-! ## Codec groundwork: the greedy group -/

theorem closingAt_length_le (run : List Char) (k : Nat) (h : closingAt run k = true) :
    k + 3 ≤ run.length := by
  simp only [closingAt, decide_eq_true_eq] at h
  have hlen := congrArg List.length h
  simp only [List.length_take, List.length_drop] at hlen
  rw [show us3.length = 3 from rfl] at hlen
  omega

theorem closingAt_mono (run₁ run₂ : List Char) (k : Nat) (hpre : run₁ <+: run₂)
    (h : closingAt run₁ k = true) : closingAt run₂ k = true := by
  obtain ⟨s, rfl⟩ := hpre
  have hk := closingAt_length_le run₁ k h
  simp only [closingAt, decide_eq_true_eq] at h ⊢
  rw [List.drop_append_of_le_length (by omega),
    List.take_append_of_le_length (by simp [List.length_drop]; omega)]
  exact h

theorem bestK_sound (run : List Char) (n k : Nat) (h : bestK run n = some k) :
    1 ≤ k ∧ k ≤ n ∧ closingAt run k = true := by
  induction n with
  | zero => simp [bestK] at h
  | succ m ih =>
    unfold bestK at h
    by_cases hc : closingAt run (m + 1)
    · rw [if_pos hc] at h
      simp only [Option.some.injEq] at h
      subst h
      exact ⟨by omega, by omega, hc⟩
    · rw [if_neg hc] at h
      obtain ⟨h1, h2, h3⟩ := ih h
      exact ⟨h1, by omega, h3⟩

theorem bestK_some_of_exists (run : List Char) (n k : Nat)
    (h1 : 1 ≤ k) (h2 : k ≤ n) (h3 : closingAt run k = true) :
    ∃ k', bestK run n = some k' := by
  induction n with
  | zero => omega
  | succ m ih =>
    unfold bestK
    by_cases hc : closingAt run (m + 1)
    · exact ⟨m + 1, by rw [if_pos hc]⟩
    · rw [if_neg hc]
      have hk : k ≤ m := by
        rcases Nat.eq_or_lt_of_le h2 with h | h
        · exact absurd (h ▸ h3) hc
        · omega
      exact ih hk

theorem takeWhile_prefix_append (p : Char → Bool) (x t : List Char) :
    (x.takeWhile p) <+: ((x ++ t).takeWhile p) := by
  induction x with
  | nil => simp
  | cons a x' ih =>
    rw [List.cons_append]
    by_cases ha : p a
    · rw [List.takeWhile_cons_of_pos ha, List.takeWhile_cons_of_pos ha]
      exact List.cons_prefix_cons.mpr ⟨rfl, ih⟩
    · rw [List.takeWhile_cons_of_neg ha]
      simp

/-- Soundness of one match attempt: the group is a non-empty run of class
characters and the match length is the group plus the two `___` fences. -/
theorem matchAt_sound (s nm : List Char) (l : Nat) (h : matchAt s = some (nm, l)) :
    nm ≠ [] ∧ (∀ ch ∈ nm, isClassChar ch = true) ∧ l = nm.length + 6 ∧ 7 ≤ l ∧ l ≤ s.length := by
  unfold matchAt at h
  by_cases h3 : s.take 3 = us3
  swap
  · rw [if_neg h3] at h
    exact absurd h (by simp)
  rw [if_pos h3] at h
  dsimp only at h
  set run := (s.drop 3).takeWhile isClassChar with hrun
  cases hbk : bestK run run.length with
  | none => rw [hbk] at h; exact absurd h (by simp)
  | some k =>
    rw [hbk] at h
    simp only [Option.some.injEq, Prod.mk.injEq] at h
    obtain ⟨hnm, hl⟩ := h
    obtain ⟨hk1, hkn, hkc⟩ := bestK_sound run run.length k hbk
    have hk3 : k + 3 ≤ run.length := closingAt_length_le run k hkc
    have hs3 : 3 ≤ s.length := by
      have := congrArg List.length h3
      simp only [List.length_take] at this
      rw [show us3.length = 3 from rfl] at this
      omega
    have hrs : run.length ≤ s.length - 3 := by
      have hp := ( List.takeWhile_prefix (l := s.drop 3) isClassChar).length_le
      simpa [List.length_drop] using hp
    have hnml : nm.length = k := by
      rw [← hnm]
      simp only [List.length_take]
      omega
    refine ⟨?_, ?_, by omega, by omega, by omega⟩
    · intro he
      rw [he] at hnml
      simp at hnml
      omega
    · intro ch hch
      rw [← hnm] at hch
      exact List.mem_takeWhile_imp (List.mem_of_mem_take hch)

end GtmSense

namespace GtmSense

/-! ## Codec groundwork: extending the text after an attempt -/

theorem takeWhile_class_append_newline_nil (y : List Char) :
    ((y ++ ['\n']).takeWhile isClassChar) = y.takeWhile isClassChar := by
  induction y with
  | nil => rw [List.nil_append, List.takeWhile_cons_of_neg (by decide), List.takeWhile_nil]
  | cons a y' ih =>
    rw [List.cons_append]
    by_cases ha : isClassChar a
    · rw [List.takeWhile_cons_of_pos ha, List.takeWhile_cons_of_pos ha, ih]
    · rw [List.takeWhile_cons_of_neg ha, List.takeWhile_cons_of_neg ha]

/-- A successful attempt against a newline-terminated tail stays successful
under any tail: the fenced group it found is still there. -/
theorem matchAt_some_append (x t : List Char) (r : List Char × Nat)
    (h : matchAt (x ++ ['\n']) = some r) : ∃ r', matchAt (x ++ t) = some r' := by
  unfold matchAt at h ⊢
  by_cases h3 : (x ++ ['\n']).take 3 = us3
  swap
  · rw [if_neg h3] at h
    exact absurd h (by simp)
  rw [if_pos h3] at h
  dsimp only at h
  have hx3 : x.take 3 = us3 ∧ 3 ≤ x.length := by
    match x with
    | [] => exact absurd h3 (by decide)
    | [a] =>
      rw [show ([a] ++ ['\n']).take 3 = [a, '\n'] from rfl] at h3
      rw [show us3 = ['_', '_', '_'] from rfl] at h3
      injection h3 with h31 h32
      injection h32 with h32 h33
      exact absurd h32 (by decide)
    | [a, b] =>
      rw [show ([a, b] ++ ['\n']).take 3 = [a, b, '\n'] from rfl] at h3
      rw [show us3 = ['_', '_', '_'] from rfl] at h3
      injection h3 with h31 h32
      injection h32 with h32 h33
      injection h33 with h33 h34
      exact absurd h33 (by decide)
    | a :: b :: c :: x' =>
      constructor
      · rw [show (a :: b :: c :: x' ++ ['\n']).take 3 = [a, b, c] from rfl] at h3
        rw [show (a :: b :: c :: x').take 3 = [a, b, c] from rfl]
        exact h3
      · simp
  rw [if_pos (by rw [List.take_append_of_le_length hx3.2]; exact hx3.1)]
  dsimp only
  rw [List.drop_append_of_le_length hx3.2] at h
  rw [List.drop_append_of_le_length hx3.2]
  set run1 := ((x.drop 3) ++ ['\n']).takeWhile isClassChar with hrun1
  cases hbk : bestK run1 run1.length with
  | none => rw [hbk] at h; exact absurd h (by simp)
  | some k =>
    obtain ⟨hk1, hkn, hkc⟩ := bestK_sound run1 run1.length k hbk
    have hpre : run1 <+: ((x.drop 3) ++ t).takeWhile isClassChar := by
      rw [hrun1, takeWhile_class_append_newline_nil]
      exact takeWhile_prefix_append isClassChar (x.drop 3) t
    have hc2 := closingAt_mono run1 _ k hpre hkc
    obtain ⟨k', hk'⟩ := bestK_some_of_exists _ _ k hk1
      (le_trans hkn hpre.length_le) hc2
    rw [hk']
    exact ⟨_, rfl⟩

/-- Contrapositive form: a failed attempt stays failed when the tail is cut
down to a single newline. -/
theorem matchAt_none_newline (x t : List Char) (h : matchAt (x ++ t) = none) :
    matchAt (x ++ ['\n']) = none := by
  cases hm : matchAt (x ++ ['\n']) with
  | none => rfl
  | some r =>
    obtain ⟨r', hr'⟩ := matchAt_some_append x t r hm
    rw [h] at hr'
    exact absurd hr' (by simp)

end GtmSense

namespace GtmSense

/-! ## Codec groundwork: whole-marker matches and the scanner -/

theorem matchAt_nil : matchAt [] = none := rfl

theorem takeWhile_all_append (p : Char → Bool) (x t : List Char) (hx : ∀ a ∈ x, p a = true) :
    ((x ++ t).takeWhile p) = x ++ t.takeWhile p := by
  induction x with
  | nil => simp
  | cons a x' ih =>
    rw [List.cons_append, List.takeWhile_cons_of_pos (hx a (by simp)),
      ih (fun b hb => hx b (by simp [hb]))]
    rfl

theorem bestK_succ (run : List Char) (k : Nat) :
    bestK run (k + 1) = if closingAt run (k + 1) then some (k + 1) else bestK run k := rfl

/-- A well-formed marker (`___NAME___`) followed by a newline matches in
full: the greedy group takes exactly the name. -/
theorem matchAt_marker (name rest : List Char) (h1 : name ≠ [])
    (h2 : ∀ ch ∈ name, isClassChar ch = true) :
    matchAt (us3 ++ name ++ us3 ++ '\n' :: rest) = some (name, name.length + 6) := by
  have htake : List.take 3 (us3 ++ name ++ us3 ++ '\n' :: rest) = us3 :=
    @List.take_left' Char us3 (name ++ us3 ++ '\n' :: rest) 3 rfl
  have hdrop : List.drop 3 (us3 ++ name ++ us3 ++ '\n' :: rest) = name ++ us3 ++ '\n' :: rest :=
    @List.drop_left' Char us3 (name ++ us3 ++ '\n' :: rest) 3 rfl
  unfold matchAt
  rw [htake, hdrop, if_pos rfl]
  dsimp only
  have hclass : ∀ a ∈ name ++ us3, isClassChar a = true := by
    intro a ha
    rcases List.mem_append.mp ha with h | h
    · exact h2 a h
    · rw [show us3 = ['_', '_', '_'] from rfl] at h
      simp at h
      subst h
      decide
  rw [show (name ++ us3 ++ '\n' :: rest : List Char) = (name ++ us3) ++ '\n' :: rest from by
    rw [List.append_assoc]]
  rw [takeWhile_all_append isClassChar (name ++ us3) ('\n' :: rest) hclass,
    List.takeWhile_cons_of_neg (by decide), List.append_nil]
  have hcl : ∀ j, closingAt (name ++ us3) (name.length + j) = closingAt us3 j := by
    intro j
    unfold closingAt
    rw [List.drop_append]
  have hc0 : closingAt (name ++ us3) name.length = true := by
    have h := hcl 0
    rw [show closingAt us3 0 = true from by decide] at h
    simpa using h
  obtain ⟨m, hm⟩ : ∃ m, name.length = m + 1 :=
    ⟨name.length - 1, by cases name with | nil => exact absurd rfl h1 | cons a l => simp⟩
  have hbk : bestK (name ++ us3) ((name ++ us3).length) = some name.length := by
    rw [show (name ++ us3).length = name.length + 3 from by simp [us3]]
    rw [show name.length + 3 = (name.length + 2) + 1 from rfl, bestK_succ,
      if_neg (by rw [show name.length + 2 + 1 = name.length + 3 from rfl, hcl 3]; decide)]
    rw [show name.length + 2 = (name.length + 1) + 1 from rfl, bestK_succ,
      if_neg (by rw [show name.length + 1 + 1 = name.length + 2 from rfl, hcl 2]; decide)]
    rw [bestK_succ, if_neg (by rw [hcl 1]; decide)]
    rw [hm, bestK_succ, if_pos (by rw [← hm]; exact hc0), ← hm]
  rw [hbk]
  dsimp only
  rw [List.take_left]

theorem scanAux_fuel (f1 f2 : Nat) (s : List Char) (i : Nat)
    (h1 : s.length ≤ f1) (h2 : s.length ≤ f2) : scanAux f1 s i = scanAux f2 s i := by
  induction f1 generalizing s i f2 with
  | zero =>
    have hs : s = [] := List.eq_nil_of_length_eq_zero (by omega)
    subst hs
    cases f2 <;> rfl
  | succ f1' ih =>
    cases s with
    | nil => cases f2 <;> rfl
    | cons c rest =>
      cases f2 with
      | zero => simp at h2
      | succ f2' =>
        unfold scanAux
        cases hm : matchAt (c :: rest) with
        | none =>
          dsimp only
          exact ih f2' rest (i + 1) (by simp at h1; omega) (by simp at h2; omega)
        | some r =>
          obtain ⟨nm, l⟩ := r
          dsimp only
          have hs := matchAt_sound _ _ _ hm
          have hlen : (rest.drop (l - 1)).length ≤ f1' := by
            simp only [List.length_drop]
            simp at h1
            omega
          have hlen2 : (rest.drop (l - 1)).length ≤ f2' := by
            simp only [List.length_drop]
            simp at h2
            omega
          rw [ih f2' _ _ hlen hlen2]

theorem scanAux_cons (f : Nat) (c : Char) (rest : List Char) (i : Nat) :
    scanAux (f + 1) (c :: rest) i =
      match matchAt (c :: rest) with
      | some (name, len) => (name, i, len) :: scanAux f (rest.drop (len - 1)) (i + len)
      | none => scanAux f rest (i + 1) := rfl

theorem scanAux_step (f : Nat) (s : List Char) (i : Nat) (nm : List Char) (l : Nat)
    (hm : matchAt s = some (nm, l)) :
    scanAux (f + 1) s i = (nm, i, l) :: scanAux f (s.drop l) (i + l) := by
  cases s with
  | nil => rw [matchAt_nil] at hm; exact absurd hm (by simp)
  | cons c rest =>
    rw [scanAux_cons, hm]
    dsimp only
    have h7 := (matchAt_sound _ _ _ hm).2.2.2.1
    obtain ⟨m, rfl⟩ : ∃ m, l = m + 1 := ⟨l - 1, by omega⟩
    rw [show (m + 1) - 1 = m from rfl, List.drop_succ_cons]

theorem scanAux_skip (a t : List Char) (i fuel : Nat)
    (hfuel : (a ++ t).length ≤ fuel)
    (hfail : ∀ p, p < a.length → matchAt (a.drop p ++ t) = none) :
    scanAux fuel (a ++ t) i = scanAux t.length t (i + a.length) := by
  induction a generalizing fuel i with
  | nil =>
    rw [List.nil_append]
    rw [show i + ([] : List Char).length = i from by simp]
    exact scanAux_fuel fuel t.length t i (by simpa using hfuel) (le_refl _)
  | cons c a' ih =>
    cases fuel with
    | zero => exact absurd hfuel (by simp)
    | succ f =>
      have h0 := hfail 0 (by simp)
      rw [show (c :: a').drop 0 ++ t = c :: (a' ++ t) from rfl] at h0
      rw [List.cons_append]
      rw [scanAux_cons, h0]
      dsimp only
      rw [ih (i + 1) f (by simp at hfuel ⊢; omega)
        (fun p hp => by
          have hp1 := hfail (p + 1) (by simpa using Nat.succ_lt_succ hp)
          simpa [List.drop_succ_cons] using hp1)]
      congr 1
      simp
      omega

end GtmSense

namespace GtmSense

/-! ## Codec groundwork: soundness of a whole scan -/

theorem trim_decomp (x : List Char) : ∃ w1 w2, x = w1 ++ trimList x ++ w2 := by
  refine ⟨x.takeWhile isJsSpace,
    ((x.dropWhile isJsSpace).reverse.takeWhile isJsSpace).reverse, ?_⟩
  rw [List.append_assoc]
  conv_lhs => rw [← List.takeWhile_append_dropWhile (p := isJsSpace) (l := x)]
  congr 1
  conv_lhs => rw [← List.reverse_reverse (x.dropWhile isJsSpace),
    ← List.takeWhile_append_dropWhile (p := isJsSpace)
      (l := (x.dropWhile isJsSpace).reverse)]
  rw [List.reverse_append]
  rfl

theorem gapsOK_weaken (d : List Char) (start : Nat) (ms : List (List Char × Nat × Nat))
    (h0 : matchAt (d.drop start) = none)
    (h : gapsOK d (start + 1) ms) : gapsOK d start ms := by
  cases ms with
  | nil =>
    intro p hp1 hp2
    rcases Nat.eq_or_lt_of_le hp1 with he | hl
    · rw [← he]; exact h0
    · exact h p hl hp2
  | cons m ms' =>
    obtain ⟨nm, j, l⟩ := m
    obtain ⟨h1, h2, h3, h4, h5⟩ := h
    refine ⟨by omega, h2, ?_, h4, h5⟩
    intro p hp1 hp2
    rcases Nat.eq_or_lt_of_le hp1 with he | hl
    · rw [← he]; exact h0
    · exact h3 p hl hp2

theorem scanAux_gaps (d : List Char) (fuel : Nat) :
    ∀ s start, s = d.drop start → start ≤ d.length → s.length ≤ fuel →
      gapsOK d start (scanAux fuel s start) := by
  induction fuel with
  | zero =>
    intro s start hs hstart hlen
    have hnil : s = [] := List.eq_nil_of_length_eq_zero (by omega)
    subst hnil
    show gapsOK d start []
    intro p hp1 hp2
    have : d.length ≤ start := List.drop_eq_nil_iff.mp hs.symm
    exact absurd hp2 (by omega)
  | succ f ih =>
    intro s start hs hstart hlen
    cases s with
    | nil =>
      show gapsOK d start []
      intro p hp1 hp2
      have : d.length ≤ start := List.drop_eq_nil_iff.mp hs.symm
      exact absurd hp2 (by omega)
    | cons c rest =>
      have hslen : rest.length + 1 = d.length - start := by
        have h1 := congrArg List.length hs
        simp only [List.length_cons, List.length_drop] at h1
        omega
      simp only [List.length_cons] at hlen
      cases hm : matchAt (c :: rest) with
      | some r =>
        obtain ⟨nm, l⟩ := r
        rw [scanAux_step f (c :: rest) start nm l hm]
        obtain ⟨hnm1, hnm2, hleq, h7, hle⟩ := matchAt_sound _ _ _ hm
        simp only [List.length_cons] at hle
        refine ⟨le_refl start, by omega, ?_, by rw [← hs]; exact hm, ?_⟩
        · intro p hp1 hp2
          exact absurd hp2 (by omega)
        · apply ih
          · rw [hs, List.drop_drop]
          · omega
          · simp only [List.length_drop, List.length_cons]
            omega
      | none =>
        rw [scanAux_cons, hm]
        dsimp only
        have hrest : rest = d.drop (start + 1) := by
          have h1 : (c :: rest).drop 1 = (d.drop start).drop 1 := by rw [hs]
          rw [List.drop_drop] at h1
          simpa using h1
        have hw := ih rest (start + 1) hrest (by omega) (by omega)
        exact gapsOK_weaken d start _ (by rw [← hs]; exact hm) hw

theorem buildSections_cons (d nm : List Char) (j l : Nat)
    (ms : List (List Char × Nat × Nat)) :
    buildSections d ((nm, j, l) :: ms) =
      { name := nm
        marker := us3 ++ nm ++ us3
        content := trimList ((d.drop (j + l)).take ((match ms with
          | [] => d.length
          | (_, idx2, _) :: _ => idx2) - (j + l)))
        fileExt := getSectionExtension nm } :: buildSections d ms := rfl

/-- Core shape argument: a section cut from a match-free region of the
document is lawful and its content is already trimmed. -/
theorem section_good_core (d nm : List Char) (a E : Nat)
    (hnm1 : nm ≠ []) (hnm2 : ∀ ch ∈ nm, isClassChar ch = true)
    (hgap : ∀ p, a ≤ p → p < E → matchAt (d.drop p) = none) :
    goodSec { name := nm
              marker := us3 ++ nm ++ us3
              content := trimList ((d.drop a).take (E - a))
              fileExt := getSectionExtension nm } ∧
      trimList (trimList ((d.drop a).take (E - a))) =
        trimList ((d.drop a).take (E - a)) := by
  constructor
  · refine ⟨hnm1, hnm2, rfl, rfl, ?_⟩
    intro q
    dsimp only
    set slice := (d.drop a).take (E - a) with hslice
    by_cases hq : q < (trimList slice).length
    swap
    · rw [List.drop_eq_nil_of_le (by omega), List.nil_append]
      exact matchAt_head_not_us '\n' [] (by decide)
    · obtain ⟨w1, w2, hw⟩ := trim_decomp slice
      have hsll : slice.length ≤ E - a := by
        rw [hslice, List.length_take]
        exact Nat.min_le_left _ _
      have hslw : slice.length = w1.length + (trimList slice).length + w2.length := by
        have h := congrArg List.length hw
        simp only [List.length_append] at h
        omega
      have hdp : d.drop (a + (w1.length + q)) =
          (trimList slice).drop q ++ (w2 ++ (d.drop a).drop (E - a)) := by
        rw [← List.drop_drop]
        conv_lhs => rw [← List.take_append_drop (E - a) (d.drop a)]
        rw [← hslice]
        conv_lhs => rw [hw]
        rw [List.append_assoc, List.append_assoc, List.drop_append,
          List.drop_append_of_le_length (by omega)]
      have hnone : matchAt (d.drop (a + (w1.length + q))) = none :=
        hgap _ (by omega) (by omega)
      rw [hdp] at hnone
      exact matchAt_none_newline _ _ hnone
  · exact trimList_idem _

/-- Every section a parse produces has a lawful shape: non-empty all-class
name, derived marker and extension, trimmed content in which no match can
start. -/
theorem buildSections_good (d : List Char) (ms : List (List Char × Nat × Nat)) :
    ∀ start, gapsOK d start ms →
      ∀ s ∈ buildSections d ms, goodSec s ∧ trimList s.content = s.content := by
  induction ms with
  | nil => intro start _ s hs; simp [buildSections] at hs
  | cons m ms' ih =>
    obtain ⟨nm, j, l⟩ := m
    intro start hg s hs
    obtain ⟨hj, hjl, hgap, hm, htail⟩ := hg
    rw [buildSections_cons] at hs
    rcases List.mem_cons.mp hs with rfl | hs
    · obtain ⟨hnm1, hnm2, hleq, h7, hle⟩ := matchAt_sound _ _ _ hm
      rcases ms' with _ | ⟨⟨n2, j2, l2⟩, ms''⟩
      · exact section_good_core d nm (j + l) d.length hnm1 hnm2
          (fun p hp1 hp2 => htail p hp1 hp2)
      · obtain ⟨t1, t2, t3, t4, t5⟩ := htail
        exact section_good_core d nm (j + l) j2 hnm1 hnm2
          (fun p hp1 hp2 => t3 p hp1 hp2)
    · exact ih (j + l) htail s hs

theorem parse_good (d : List Char) :
    ∀ s ∈ parseTemplateSections d, goodSec s ∧ trimList s.content = s.content :=
  buildSections_good d (scanMarkers d) 0
    (scanAux_gaps d d.length d 0 (by rw [List.drop_zero]) (by omega) (le_refl _))

end GtmSense

namespace GtmSense

/-! ## Scanning a rebuilt template -/

theorem scanAux_nil (f i : Nat) : scanAux f [] i = [] := by cases f <;> rfl

theorem rebuild_nil : rebuildTemplate [] = [] := rfl

theorem rebuild_one (s : TemplateSection) :
    rebuildTemplate [s] = s.marker ++ ['\n'] ++ s.content ++ ['\n'] := by
  show (s.marker ++ ['\n'] ++ s.content ++ ['\n']) ++ [] = _
  rw [List.append_nil]

theorem rebuild_cons2 (s s2 : TemplateSection) (L : List TemplateSection) :
    rebuildTemplate (s :: s2 :: L) =
      (s.marker ++ ['\n'] ++ s.content ++ ['\n']) ++ '\n' :: rebuildTemplate (s2 :: L) := by
  show (s.marker ++ ['\n'] ++ s.content ++ ['\n']) ++ (['\n'] ++ _) = _
  rfl

theorem inert_tail_one (content : List Char) (hin : inert content) :
    ∀ p, p < ('\n' :: (content ++ ['\n'])).length →
      matchAt (('\n' :: (content ++ ['\n'])).drop p ++ []) = none := by
  intro p hp
  rw [List.append_nil]
  cases p with
  | zero => exact matchAt_head_not_us '\n' _ (by decide)
  | succ q =>
    rw [List.drop_succ_cons]
    simp only [List.length_cons, List.length_append, List.length_nil] at hp
    have hq : q ≤ content.length := by omega
    rw [List.drop_append_of_le_length hq]
    exact hin q

theorem inert_tail_two (content R : List Char) (hin : inert content) :
    ∀ p, p < ('\n' :: (content ++ ['\n', '\n'])).length →
      matchAt (('\n' :: (content ++ ['\n', '\n'])).drop p ++ R) = none := by
  intro p hp
  cases p with
  | zero =>
    rw [List.drop_zero, List.cons_append]
    exact matchAt_head_not_us '\n' _ (by decide)
  | succ q =>
    rw [List.drop_succ_cons]
    simp only [List.length_cons, List.length_append, List.length_nil] at hp
    rcases Nat.lt_or_ge q (content.length + 1) with h | h
    · have hq : q ≤ content.length := by omega
      rw [List.drop_append_of_le_length hq, List.append_assoc]
      rw [show (['\n', '\n'] : List Char) ++ R = '\n' :: ('\n' :: R) from rfl]
      rw [matchAt_append_newline]
      exact hin q
    · have hq : q = content.length + 1 := by omega
      subst hq
      rw [List.drop_append]
      exact matchAt_head_not_us '\n' R (by decide)

/-- Scanning a rebuilt document made of lawful sections recovers exactly one
match per section, at the expected offsets. -/
theorem rebuild_scan (L : List TemplateSection) (hL : ∀ s ∈ L, goodSec s) :
    ∀ i fuel, (rebuildTemplate L).length ≤ fuel →
      scanAux fuel (rebuildTemplate L) i = expectedMatches L i := by
  induction L with
  | nil => intro i fuel _; rw [rebuild_nil, scanAux_nil]; rfl
  | cons s L' ih =>
    have ihL := ih (fun t ht => hL t (List.mem_cons_of_mem s ht))
    intro i fuel hfuel
    obtain ⟨hn1, hn2, hmk, hext, hin⟩ := hL s (List.mem_cons_self s _)
    have hlen : ((us3 ++ s.name) ++ us3).length = s.name.length + 6 := by
      simp only [us3, List.length_append, List.length_cons, List.length_nil]
      omega
    cases L' with
    | nil =>
      have hdoc : rebuildTemplate [s] =
          ((us3 ++ s.name) ++ us3) ++ ('\n' :: (s.content ++ ['\n'])) := by
        rw [rebuild_one, hmk]
        simp [List.append_assoc]
      rw [hdoc] at hfuel ⊢
      cases fuel with
      | zero => exact absurd hfuel (by simp [us3])
      | succ f =>
        rw [scanAux_step f _ i s.name (s.name.length + 6)
          (matchAt_marker s.name (s.content ++ ['\n']) hn1 hn2)]
        have hdrop : (((us3 ++ s.name) ++ us3) ++ ('\n' :: (s.content ++ ['\n']))).drop
            (s.name.length + 6) = '\n' :: (s.content ++ ['\n']) := by
          rw [← hlen]
          exact List.drop_left _ _
        rw [hdrop]
        have hskip := scanAux_skip ('\n' :: (s.content ++ ['\n'])) []
          (i + (s.name.length + 6)) f
          (by simp only [List.length_append, List.length_cons, List.length_nil,
                us3] at hfuel ⊢
              omega)
          (inert_tail_one s.content hin)
        rw [List.append_nil] at hskip
        rw [hskip]
        rfl
    | cons s2 L'' =>
      have hdoc : rebuildTemplate (s :: s2 :: L'') =
          ((us3 ++ s.name) ++ us3) ++
            ('\n' :: ((s.content ++ ['\n', '\n']) ++ rebuildTemplate (s2 :: L''))) := by
        rw [rebuild_cons2, hmk]
        simp [List.append_assoc]
      rw [hdoc] at hfuel ⊢
      cases fuel with
      | zero => exact absurd hfuel (by simp [us3])
      | succ f =>
        rw [scanAux_step f _ i s.name (s.name.length + 6)
          (matchAt_marker s.name
            ((s.content ++ ['\n', '\n']) ++ rebuildTemplate (s2 :: L'')) hn1 hn2)]
        have hdrop : (((us3 ++ s.name) ++ us3) ++
            ('\n' :: ((s.content ++ ['\n', '\n']) ++ rebuildTemplate (s2 :: L'')))).drop
            (s.name.length + 6) =
            '\n' :: ((s.content ++ ['\n', '\n']) ++ rebuildTemplate (s2 :: L'')) := by
          rw [← hlen]
          exact List.drop_left _ _
        rw [hdrop]
        rw [show '\n' :: ((s.content ++ ['\n', '\n']) ++ rebuildTemplate (s2 :: L'')) =
          ('\n' :: (s.content ++ ['\n', '\n'])) ++ rebuildTemplate (s2 :: L'') from rfl]
        have hskip := scanAux_skip ('\n' :: (s.content ++ ['\n', '\n']))
          (rebuildTemplate (s2 :: L'')) (i + (s.name.length + 6)) f
          (by simp only [List.length_append, List.length_cons, List.length_nil,
                us3] at hfuel ⊢
              omega)
          (inert_tail_two s.content (rebuildTemplate (s2 :: L'')) hin)
        rw [hskip]
        rw [show i + (s.name.length + 6) + ('\n' :: (s.content ++ ['\n', '\n'])).length =
          i + s.name.length + s.content.length + 9 from by
            simp only [List.length_cons, List.length_append, List.length_nil]
            omega]
        rw [ihL _ _ (le_refl _)]
        rfl

end GtmSense

namespace GtmSense

/-! ## Rebuilt documents re-parse to the trimmed section list -/

theorem expectedMatches_cons (s : TemplateSection) (L : List TemplateSection) (i : Nat) :
    expectedMatches (s :: L) i = (s.name, i, s.name.length + 6) ::
      expectedMatches L (i + s.name.length + s.content.length + 9) := rfl

theorem buildSections_cons2 (d nm : List Char) (j l : Nat)
    (m2 : List Char × Nat × Nat) (ms : List (List Char × Nat × Nat)) :
    buildSections d ((nm, j, l) :: m2 :: ms) =
      { name := nm
        marker := us3 ++ nm ++ us3
        content := trimList ((d.drop (j + l)).take (m2.2.1 - (j + l)))
        fileExt := getSectionExtension nm } :: buildSections d (m2 :: ms) := by
  obtain ⟨n2, j2, l2⟩ := m2
  rfl

/-- Parsing back the matches of a rebuilt document recovers the section list
with each content trimmed. -/
theorem buildSections_rebuilt (L : List TemplateSection) (hL : ∀ s ∈ L, goodSec s) :
    ∀ d i, d.drop i = rebuildTemplate L →
      buildSections d (expectedMatches L i) = L.map trimSec := by
  induction L with
  | nil => intro d i _; rfl
  | cons s L' ih =>
    have ihL := ih (fun t ht => hL t (List.mem_cons_of_mem s ht))
    intro d i hd
    obtain ⟨hn1, hn2, hmk, hext, hin⟩ := hL s (List.mem_cons_self s _)
    have hlen : ((us3 ++ s.name) ++ us3).length = s.name.length + 6 := by
      simp only [us3, List.length_append, List.length_cons, List.length_nil]
      omega
    cases L' with
    | nil =>
      have hdoc : rebuildTemplate [s] =
          ((us3 ++ s.name) ++ us3) ++ ('\n' :: (s.content ++ ['\n'])) := by
        rw [rebuild_one, hmk]
        simp [List.append_assoc]
      rw [hdoc] at hd
      have hdl : d.length - i = s.name.length + 6 + (s.content.length + 2) := by
        have h1 := congrArg List.length hd
        simp only [List.length_drop, List.length_append, List.length_cons,
          List.length_nil, us3] at h1
        omega
      have hdrop2 : d.drop (i + (s.name.length + 6)) = '\n' :: (s.content ++ ['\n']) := by
        rw [← List.drop_drop, hd, ← hlen, List.drop_left]
      have hcontent : trimList ((d.drop (i + (s.name.length + 6))).take
          (d.length - (i + (s.name.length + 6)))) = trimList s.content := by
        rw [hdrop2]
        rw [show d.length - (i + (s.name.length + 6)) = s.content.length + 2 from by omega]
        rw [List.take_of_length_le (by
          simp only [List.length_cons, List.length_append, List.length_nil]
          omega)]
        rw [show ('\n' :: (s.content ++ ['\n']) : List Char) =
          ['\n'] ++ (s.content ++ ['\n']) from rfl]
        rw [trimList_ws_left ['\n'] _ (by decide)]
        rw [trimList_ws_right s.content ['\n'] (by decide)]
      rw [expectedMatches_cons]
      rw [show expectedMatches ([] : List TemplateSection)
        (i + s.name.length + s.content.length + 9) = [] from rfl]
      rw [buildSections_cons]
      dsimp only
      rw [hcontent, ← hmk, ← hext]
      rfl
    | cons s2 L'' =>
      have hdoc : rebuildTemplate (s :: s2 :: L'') =
          ((us3 ++ s.name) ++ us3) ++
            ('\n' :: ((s.content ++ ['\n', '\n']) ++ rebuildTemplate (s2 :: L''))) := by
        rw [rebuild_cons2, hmk]
        simp [List.append_assoc]
      rw [hdoc] at hd
      have hdrop2 : d.drop (i + (s.name.length + 6)) =
          '\n' :: ((s.content ++ ['\n', '\n']) ++ rebuildTemplate (s2 :: L'')) := by
        rw [← List.drop_drop, hd, ← hlen, List.drop_left]
      have hcontent : trimList ((d.drop (i + (s.name.length + 6))).take
          (i + s.name.length + s.content.length + 9 - (i + (s.name.length + 6)))) =
          trimList s.content := by
        rw [hdrop2]
        rw [show i + s.name.length + s.content.length + 9 - (i + (s.name.length + 6)) =
          s.content.length + 3 from by omega]
        rw [show ('\n' :: ((s.content ++ ['\n', '\n']) ++ rebuildTemplate (s2 :: L'')) :
            List Char) =
          ('\n' :: (s.content ++ ['\n', '\n'])) ++ rebuildTemplate (s2 :: L'') from rfl]
        rw [@List.take_left' Char ('\n' :: (s.content ++ ['\n', '\n']))
          (rebuildTemplate (s2 :: L'')) (s.content.length + 3) (by
            simp only [List.length_cons, List.length_append, List.length_nil])]
        rw [show ('\n' :: (s.content ++ ['\n', '\n']) : List Char) =
          ['\n'] ++ (s.content ++ ['\n', '\n']) from rfl]
        rw [trimList_ws_left ['\n'] _ (by decide)]
        rw [trimList_ws_right s.content ['\n', '\n'] (by decide)]
      have hnext : d.drop (i + s.name.length + s.content.length + 9) =
          rebuildTemplate (s2 :: L'') := by
        have h2 : d.drop i = (((us3 ++ s.name) ++ us3) ++
            ('\n' :: (s.content ++ ['\n', '\n']))) ++ rebuildTemplate (s2 :: L'') := by
          rw [hd, List.append_assoc ((us3 ++ s.name) ++ us3)
            ('\n' :: (s.content ++ ['\n', '\n'])) (rebuildTemplate (s2 :: L''))]
          rfl
        rw [show i + s.name.length + s.content.length + 9 =
          i + (s.name.length + s.content.length + 9) from by omega]
        rw [← List.drop_drop, h2]
        exact List.drop_left' (by
          simp only [List.length_append, List.length_cons, List.length_nil, us3]
          omega)
      rw [expectedMatches_cons s (s2 :: L'') i]
      rw [expectedMatches_cons s2 L'']
      rw [buildSections_cons2]
      dsimp only
      rw [← expectedMatches_cons s2 L'']
      rw [ihL d _ hnext]
      rw [hcontent, ← hmk, ← hext]
      rfl

end GtmSense

namespace GtmSense

/-! ## Round-trip codec: C3 and C10 -/

theorem map_trimSec_id (L : List TemplateSection) (h : ∀ s ∈ L, trimSec s = s) :
    L.map trimSec = L := by
  induction L with
  | nil => rfl
  | cons s rest ih =>
    rw [List.map_cons, h s (List.mem_cons_self s _),
      ih (fun u hu => h u (List.mem_cons_of_mem s hu))]

/-- Parsing a rebuilt document made of lawful sections yields the sections
back, with contents trimmed. -/
theorem parse_rebuild (L : List TemplateSection) (hgood : ∀ s ∈ L, goodSec s) :
    parseTemplateSections (rebuildTemplate L) = L.map trimSec := by
  have h1 : scanMarkers (rebuildTemplate L) = expectedMatches L 0 :=
    rebuild_scan L hgood 0 (rebuildTemplate L).length (le_refl _)
  have h2 : buildSections (rebuildTemplate L) (expectedMatches L 0) = L.map trimSec :=
    buildSections_rebuilt L hgood (rebuildTemplate L) 0 (by rw [List.drop_zero])
  show buildSections (rebuildTemplate L) (scanMarkers (rebuildTemplate L)) = L.map trimSec
  rw [h1, h2]

theorem setContent_map_trimSec (L : List TemplateSection) :
    ∀ i c, (setContent L i c).map trimSec = setContent (L.map trimSec) i (trimList c) := by
  induction L with
  | nil => intro i c; rfl
  | cons s rest ih =>
    intro i c
    cases i with
    | zero => rfl
    | succ n =>
      show trimSec s :: (setContent rest n c).map trimSec =
        trimSec s :: setContent (rest.map trimSec) n (trimList c)
      rw [ih n c]

theorem setContent_good (L : List TemplateSection) (hL : ∀ s ∈ L, goodSec s) :
    ∀ i c, inert c → ∀ s ∈ setContent L i c, goodSec s := by
  induction L with
  | nil => intro i c _ s hs; simp [setContent] at hs
  | cons t rest ih =>
    intro i c hc s hs
    cases i with
    | zero =>
      rcases List.mem_cons.mp hs with rfl | hs
      · obtain ⟨h1, h2, h3, h4, h5⟩ := hL t (List.mem_cons_self t _)
        exact ⟨h1, h2, h3, h4, hc⟩
      · exact hL s (List.mem_cons_of_mem t hs)
    | succ n =>
      rcases List.mem_cons.mp hs with h | hs
      · subst h
        exact hL _ (List.mem_cons_self _ _)
      · exact ih (fun u hu => hL u (List.mem_cons_of_mem t hu)) n c hc s hs

theorem updateTemplateSection_some (d M c : List Char) (i : Nat)
    (h : (parseTemplateSections d).findIdx? (fun s => s.name = M) = some i) :
    updateTemplateSection d M c =
      rebuildTemplate (setContent (parseTemplateSections d) i c) := by
  unfold updateTemplateSection
  dsimp only
  rw [h]

theorem inert_of_forall_lt (c : List Char)
    (h : ∀ i, i < c.length → matchAt (c.drop i ++ ['\n']) = none) : inert c := by
  intro i
  rcases Nat.lt_or_ge i c.length with hl | hg
  · exact h i hl
  · rw [List.drop_eq_nil_of_le hg, List.nil_append]
    exact matchAt_head_not_us '\n' [] (by decide)

/-- C3: round-trip section codec. For every document `d`, rebuilding the
parsed sections and re-parsing yields exactly the sections of the original
parse: same names, same markers, same contents. -/
theorem c3_roundtrip_codec (d : List Char) :
    parseTemplateSections (rebuildTemplate (parseTemplateSections d)) =
      parseTemplateSections d := by
  have hg : ∀ s ∈ parseTemplateSections d, goodSec s := fun s hs => (parse_good d s hs).1
  rw [parse_rebuild (parseTemplateSections d) hg]
  exact map_trimSec_id _ (fun s hs => by
    have h2 := (parse_good d s hs).2
    show ({ s with content := trimList s.content } : TemplateSection) = s
    rw [h2])

/-- C10 counterexample: as stated the claim fails for arbitrary new content.
Replacing section `A`'s content with text that itself contains a marker
(`___B___`) changes the parsed marker sequence of the updated document. -/
theorem c10_counterexample :
    (parseTemplateSections (updateTemplateSection ("___A___\nx").toList
        ("A").toList ("___B___").toList)).map (fun s => s.name) ≠
      (parseTemplateSections ("___A___\nx").toList).map (fun s => s.name) := by
  decide

/-- C10 (amended): if some parsed section of `d` is named `M` (say the first
such has index `i`) and the new content `c` cannot start a marker match at
any offset, then parsing the updated document yields exactly the original
sections with section `i`'s content replaced by `c` trimmed: marker sequence
preserved, other contents unchanged. -/
theorem c10_section_replacement (d M c : List Char) (i : Nat)
    (hidx : (parseTemplateSections d).findIdx? (fun s => s.name = M) = some i)
    (hc : inert c) :
    parseTemplateSections (updateTemplateSection d M c) =
      setContent (parseTemplateSections d) i (trimList c) := by
  have hg : ∀ s ∈ parseTemplateSections d, goodSec s := fun s hs => (parse_good d s hs).1
  have hg' : ∀ s ∈ setContent (parseTemplateSections d) i c, goodSec s :=
    setContent_good (parseTemplateSections d) hg i c hc
  rw [updateTemplateSection_some d M c i hidx]
  rw [parse_rebuild (setContent (parseTemplateSections d) i c) hg']
  rw [setContent_map_trimSec]
  rw [map_trimSec_id _ (fun s hs => by
    have h2 := (parse_good d s hs).2
    show ({ s with content := trimList s.content } : TemplateSection) = s
    rw [h2])]

theorem c10_section_replacement_witness :
    parseTemplateSections (updateTemplateSection ("___A___\nfoo\n___B___\nbar").toList
        ("B").toList ("baz").toList) =
      setContent (parseTemplateSections ("___A___\nfoo\n___B___\nbar").toList) 1
        (trimList ("baz").toList) :=
  c10_section_replacement ("___A___\nfoo\n___B___\nbar").toList ("B").toList
    ("baz").toList 1 (by decide) (inert_of_forall_lt _ (by decide))

end GtmSense
